import Mathlib

/-!
Verification of the brain-stream backend against its specification.

This development shallowly embeds the core services of the repository:

* `services/topology.py` — `TopologyEngine.embed_and_store`, `recluster`,
  `get_cluster_articles`, `get_boundary_articles`, `get_article`;
* `core/database.py` — `upsert_cluster_arm`, `update_arm_reward`, `log_action`,
  `get_all_cluster_arms`;
* `services/feed.py` — `FeedSelector.generate_feed`, `record_action`,
  `_get_latest_articles`, `_filter_articles`, `_article_to_feed_item`;
* `services/cooccurrence.py` — `CoOccurrenceService.analyze`, `_normalize_tag`;
* `llm/claude_code.py` — `ClaudeCodeProvider._extract_json` and the response
  handling of `analyze`;
* `plugins/builtin/github_releases.py` — `_fetch_repo_releases`, `fetch_updates`.

Modelling conventions:

* Python strings are embedded as `List Char` (named `Str` below).  All string
  operations used by the code (lowercasing, stripping, single-character
  splitting, substring search, slicing) are defined structurally so that the
  kernel can evaluate them on concrete inputs.
* Python floats (Beta-arm parameters, sampled values, embedding coordinates)
  are embedded as rationals `ℚ`.
* The ChromaDB collection is embedded as a list of records in insertion
  order, which is the order `collection.get()` enumerates records in.
* The SQLite tables are embedded as lists of rows in insertion order;
  `get_all_cluster_arms` sorts by `cluster_id` (`ORDER BY cluster_id`).
* Python `list.sort` / `sorted` are stable; they are embedded by the stable
  insertion sort `stableSortBy` proved below to be a stable sorting function.
-/

namespace BrainStream

/-- Embedding of a Python `str` as a list of characters. -/
abbrev Str := List Char

/-- Coerce a Lean string literal to the `Str` embedding. -/
def str (s : String) : Str := s.data

/-- Python `str.lower()` (ASCII suffices for the inputs considered here). -/
def strLower (s : Str) : Str := s.map Char.toLower

/-- Python `str.strip()`: remove leading and trailing whitespace. -/
def strStrip (s : Str) : Str :=
  ((s.dropWhile Char.isWhitespace).reverse.dropWhile Char.isWhitespace).reverse

/-- Python `a <= b` on strings: lexicographic comparison by code point. -/
def strLe : Str → Str → Bool
  | [], _ => true
  | _ :: _, [] => false
  | a :: s, b :: t => if a < b then true else if b < a then false else strLe s t

/-- Python `str.split(sep)` for a single-character separator. -/
def splitOnChar (sep : Char) : Str → List Str
  | [] => [[]]
  | c :: rest =>
    let r := splitOnChar sep rest
    if c = sep then [] :: r
    else
      match r with
      | [] => [[c]]
      | p :: ps => (c :: p) :: ps

/-- First occurrence of `pat` in a string: returns the text before the match
and the text after it (the model of `re.search` on a literal pattern). -/
def findSub (pat : Str) : Str → Option (Str × Str)
  | [] => if pat = [] then some ([], []) else none
  | c :: rest =>
    if pat.isPrefixOf (c :: rest) then some ([], (c :: rest).drop pat.length)
    else
      match findSub pat rest with
      | some (pre, post) => some (c :: pre, post)
      | none => none

/-- Python `needle in haystack` on strings (substring containment). -/
def strContainsSub (haystack pat : Str) : Bool :=
  (findSub pat haystack).isSome

/-- Stable insertion of an element into a list: `a` is placed before the first
element `b` with `le a b`.  Together with `stableSortBy` this models the
(stable) Python `list.sort` / `sorted`. -/
def insertLe (le : α → α → Bool) (a : α) : List α → List α
  | [] => [a]
  | b :: t => if le a b then a :: b :: t else b :: insertLe le a t

/-- Stable sort by the boolean comparison `le`; the model of Python's stable
`sorted(..., key=...)`. -/
def stableSortBy (le : α → α → Bool) : List α → List α
  | [] => []
  | a :: rest => insertLe le a (stableSortBy le rest)

theorem insertLe_perm (le : α → α → Bool) (a : α) (l : List α) :
    List.Perm (insertLe le a l) (a :: l) := by
  induction l with
  | nil => simp [insertLe]
  | cons b t ih =>
    by_cases h : le a b
    · simp [insertLe, h]
    · simp only [insertLe, h, if_neg, Bool.false_eq_true, not_false_iff, ite_false]
      exact (ih.cons b).trans (List.Perm.swap a b t)

theorem stableSortBy_perm (le : α → α → Bool) (l : List α) :
    List.Perm (stableSortBy le l) l := by
  induction l with
  | nil => simp [stableSortBy]
  | cons a rest ih =>
    exact (insertLe_perm le a (stableSortBy le rest)).trans (ih.cons a)

theorem mem_stableSortBy {le : α → α → Bool} {l : List α} {a : α} :
    a ∈ stableSortBy le l ↔ a ∈ l :=
  (stableSortBy_perm le l).mem_iff

theorem length_stableSortBy (le : α → α → Bool) (l : List α) :
    (stableSortBy le l).length = l.length :=
  (stableSortBy_perm le l).length_eq

theorem insertLe_pairwise (le : α → α → Bool)
    (htot : ∀ a b, le a b = true ∨ le b a = true)
    (htrans : ∀ a b c, le a b = true → le b c = true → le a c = true)
    (a : α) (l : List α) (h : l.Pairwise fun x y => le x y = true) :
    (insertLe le a l).Pairwise fun x y => le x y = true := by
  induction l with
  | nil => simp [insertLe]
  | cons b t ih =>
    rcases List.pairwise_cons.mp h with ⟨hb, ht⟩
    by_cases hab : le a b
    · simp only [insertLe, hab, ite_true]
      refine List.pairwise_cons.mpr ⟨?_, h⟩
      intro c hc
      rcases List.mem_cons.mp hc with hc | hc
      · subst hc; exact hab
      · exact htrans a b c hab (hb c hc)
    · simp only [insertLe, hab, Bool.false_eq_true, not_false_iff, ite_false]
      refine List.pairwise_cons.mpr ⟨?_, ih ht⟩
      intro c hc
      rcases List.mem_cons.mp ((insertLe_perm le a t).mem_iff.mp hc) with hc | hc
      · rw [hc]
        rcases htot a b with h1 | h1
        · exact absurd h1 hab
        · exact h1
      · exact hb c hc

theorem stableSortBy_pairwise (le : α → α → Bool)
    (htot : ∀ a b, le a b = true ∨ le b a = true)
    (htrans : ∀ a b c, le a b = true → le b c = true → le a c = true)
    (l : List α) :
    (stableSortBy le l).Pairwise fun x y => le x y = true := by
  induction l with
  | nil => simp [stableSortBy]
  | cons a rest ih => exact insertLe_pairwise le htot htrans a _ ih

/-- Filtering past a stable insertion: if the inserted element precedes (in the
`le` sense) every element satisfying `p`, then filtering by `p` sees `a` first
(when `p a`) and the remaining elements in their previous order. -/
theorem insertLe_filter (le : α → α → Bool) (p : α → Bool) (a : α) (l : List α)
    (h : p a = true → ∀ b ∈ l, p b = true → le a b = true) :
    (insertLe le a l).filter p =
      (if p a then a :: l.filter p else l.filter p) := by
  induction l with
  | nil =>
    by_cases hpa : p a <;> simp [insertLe, List.filter, hpa]
  | cons b t ih =>
    by_cases hab : le a b
    · by_cases hpa : p a <;> simp [insertLe, hab, List.filter, hpa]
    · have step : (insertLe le a (b :: t)) = b :: insertLe le a t := by
        simp [insertLe, hab]
      by_cases hpa : p a
      · have hpb : ¬ p b = true := fun hb =>
          hab (h hpa b (List.mem_cons_self b t) hb)
        have ih' := ih fun ha c hc hpc => h ha c (List.mem_cons_of_mem b hc) hpc
        simp only [step, List.filter, hpb, ite_false, hpa, ite_true] at *
        simp only [Bool.not_eq_true] at hpb
        simp [hpb, ih', hpa]
      · have ih' := ih fun ha => absurd ha hpa
        simp only [Bool.not_eq_true] at hpa
        by_cases hpb : p b <;> simp [step, List.filter, hpb, hpa, ih']

/-- Stability of the sort, expressed through filtering: if all elements
satisfying `p` compare `le` to each other (as equal-key elements do for a
key-based comparison), then the sorted output restricted to `p` is exactly the
input restricted to `p` — ties keep their original relative order. -/
theorem stableSortBy_filter (le : α → α → Bool) (p : α → Bool) (l : List α)
    (h : ∀ a b, p a = true → p b = true → le a b = true) :
    (stableSortBy le l).filter p = l.filter p := by
  induction l with
  | nil => simp [stableSortBy]
  | cons a rest ih =>
    have step := insertLe_filter le p a (stableSortBy le rest)
      (fun hpa b _ hpb => h a b hpa hpb)
    by_cases hpa : p a
    · simp [stableSortBy, step, hpa, ih, List.filter]
    · simp only [Bool.not_eq_true] at hpa
      simp [stableSortBy, step, hpa, ih, List.filter]

/-! ## Data model

`StoredArticle` embeds one record of the ChromaDB `articles` collection: the
metadata dictionary written by `TopologyEngine.embed_and_store` plus the
embedding vector.  The stored `documents` text is never read back by the
code under verification and is omitted.  The collection is embedded as a
`List StoredArticle` in insertion order. -/

structure StoredArticle where
  id : Str
  url : Str
  original_title : Str
  summary : Str
  tags : Str
  vendor : Str
  published_at : Str
  is_primary_source : Bool
  tech_domain : Str
  cluster_id : Int
  collected_at : Str
  source_plugin : Str
  embedding : List ℚ

instance : Inhabited StoredArticle :=
  ⟨{ id := [], url := [], original_title := [], summary := [], tags := [],
     vendor := [], published_at := [], is_primary_source := false,
     tech_domain := [], cluster_id := -1, collected_at := [],
     source_plugin := [], embedding := [] }⟩

/-- Embeds `ProcessedArticle` from `services/topology.py`: an article with LLM
processing results, ready for embedding. -/
structure ProcessedArticle where
  external_id : Str
  url : Str
  original_title : Str
  summary : Str
  tags : List Str
  vendor : Str
  is_primary_source : Bool
  tech_domain : Str
  published_at : Str
  source_plugin : Str

/-- One row of the SQLite `cluster_arms` table (`core/database.py`). -/
structure ClusterArm where
  cluster_id : Int
  alpha : ℚ
  beta : ℚ
  article_count : Nat
  label : Str
  updated_at : Str

/-- One row of the SQLite `action_logs` table (`core/database.py`). -/
structure ActionLog where
  id : Nat
  article_id : Str
  action : Str
  cluster_id : Option Int
  created_at : Str

/-! ## `core/database.py` -/

/-- Embeds `get_all_cluster_arms`: `SELECT * FROM cluster_arms ORDER BY cluster_id`. -/
def get_all_cluster_arms (arms : List ClusterArm) : List ClusterArm :=
  stableSortBy (fun a b => decide (a.cluster_id ≤ b.cluster_id)) arms

/-- Embeds `upsert_cluster_arm`: insert a new row, or on a `cluster_id` conflict
overwrite `alpha`, `beta` and `article_count` with the given values, keep the
old `label` when the given one is empty, and refresh `updated_at`.  The Python
function defaults `alpha=1.0, beta=1.0, article_count=0, label=""`; call sites
below pass those defaults explicitly. -/
def upsert_cluster_arm (now : Str) (arms : List ClusterArm) (cluster_id : Int)
    (alpha beta : ℚ) (article_count : Nat) (label : Str) : List ClusterArm :=
  if arms.any (fun a => a.cluster_id == cluster_id) then
    arms.map fun a =>
      if a.cluster_id == cluster_id then
        { a with alpha := alpha, beta := beta, article_count := article_count,
                 label := if label.isEmpty then a.label else label,
                 updated_at := now }
      else a
  else
    arms ++ [{ cluster_id := cluster_id, alpha := alpha, beta := beta,
               article_count := article_count, label := label, updated_at := now }]

/-- Embeds `update_arm_reward`: `UPDATE cluster_arms SET alpha = alpha + 1 …` (or
`beta = beta + 1`) `WHERE cluster_id = ?`. -/
def update_arm_reward (now : Str) (arms : List ClusterArm) (cluster_id : Int)
    (success : Bool) : List ClusterArm :=
  arms.map fun a =>
    if a.cluster_id == cluster_id then
      if success then { a with alpha := a.alpha + 1, updated_at := now }
      else { a with beta := a.beta + 1, updated_at := now }
    else a

/-- Embeds `log_action`: append one row to `action_logs` (`id` is autoincremented). -/
def log_action (now : Str) (log : List ActionLog) (article_id action : Str)
    (cluster_id : Option Int) : List ActionLog :=
  log ++ [{ id := log.length + 1, article_id := article_id, action := action,
            cluster_id := cluster_id, created_at := now }]

/-! ## `services/topology.py` -/

/-- The record written for one newly stored article: metadata copied from the
`ProcessedArticle`, tags comma-joined, `cluster_id = -1`, `collected_at = now`,
and the embedding computed from `title + " " + summary`. -/
def to_stored (embed : Str → List ℚ) (now : Str) (a : ProcessedArticle) :
    StoredArticle :=
  { id := a.external_id
    url := a.url
    original_title := a.original_title
    summary := a.summary
    tags := List.intercalate (str (",")) a.tags
    vendor := a.vendor
    published_at := a.published_at
    is_primary_source := a.is_primary_source
    tech_domain := a.tech_domain
    cluster_id := -1
    collected_at := now
    source_plugin := a.source_plugin
    embedding := embed (a.original_title ++ str (" ") ++ a.summary) }

/-- Embeds `TopologyEngine.embed_and_store`: skip articles whose `external_id` is
already present, embed the rest from `title + " " + summary`, append them to
the collection with `cluster_id = -1`, and return the number stored.  `embed`
abstracts the sentence-transformers model. -/
def embed_and_store (embed : Str → List ℚ) (now : Str)
    (store : List StoredArticle) (articles : List ProcessedArticle) :
    Nat × List StoredArticle :=
  if articles.isEmpty then (0, store)
  else
    let new_articles :=
      articles.filter (fun a => !(store.any (fun r => r.id == a.external_id)))
    if new_articles.isEmpty then (0, store)
    else
      (new_articles.length, store ++ new_articles.map (to_stored embed now))

/-- Per-label counts in first-appearance order (the Python `dict` built by
`recluster` preserves insertion order). -/
def addCount : List (Int × Nat) → Int → List (Int × Nat)
  | [], l => [(l, 1)]
  | (k, n) :: rest, l =>
    if k == l then (k, n + 1) :: rest else (k, n) :: addCount rest l

def countLabels (labels : List Int) : List (Int × Nat) :=
  labels.foldl addCount []

/-- Embeds `TopologyEngine.recluster`: read all embeddings, label them (all zeros when
there are fewer than `min_cluster_size` articles, otherwise the HDBSCAN output,
abstracted by the `hdbscan` parameter), write the labels back to every record,
and upsert a `ClusterArm` for every non-noise cluster with the Python-default
`alpha=1.0`, `beta=1.0`, `label=""` and the new member count.  Returns the new
store, the new arms and the per-cluster counts. -/
def recluster (min_cluster_size : Nat) (hdbscan : List (List ℚ) → List Int)
    (now : Str) (store : List StoredArticle) (arms : List ClusterArm) :
    List StoredArticle × List ClusterArm × List (Int × Nat) :=
  if store.isEmpty then (store, arms, [])
  else
    let labels :=
      if store.length < min_cluster_size then List.replicate store.length 0
      else hdbscan (store.map (·.embedding))
    let store' := store.zipWith (fun r l => { r with cluster_id := l }) labels
    let cluster_counts := countLabels labels
    let arms' := cluster_counts.foldl
      (fun acc (c : Int × Nat) =>
        if c.1 == -1 then acc else upsert_cluster_arm now acc c.1 1 1 c.2 []) arms
    (store', arms', cluster_counts)

/-- Embeds `TopologyEngine.get_article`: ChromaDB `get(ids=[article_id])`. -/
def get_article (store : List StoredArticle) (article_id : Str) :
    Option StoredArticle :=
  store.find? (fun r => r.id == article_id)

/-- The comparison used by `articles.sort(key=published_at, reverse=True)`:
`a` may precede `b` iff `b.published_at <= a.published_at`.  CPython's sort is
stable also under `reverse=True` (equal keys keep their original order). -/
def pubDesc (a b : StoredArticle) : Bool := strLe b.published_at a.published_at

/-- Embeds `TopologyEngine.get_cluster_articles`: the records of one cluster, sorted
by `published_at` descending when `newest_first`, truncated to `n`. -/
def get_cluster_articles (store : List StoredArticle) (cluster_id : Int)
    (n : Nat) (newest_first : Bool) : List StoredArticle :=
  let articles := store.filter (fun r => r.cluster_id == cluster_id)
  let articles := if newest_first then stableSortBy pubDesc articles else articles
  articles.take n

/-- Squared Euclidean distance.  The source computes
`np.linalg.norm(x - centroid)`; ranking and ties under the squared distance
coincide with those under the true distance, and only the ranking is consumed
by the code under verification. -/
def distSq (v w : List ℚ) : ℚ :=
  ((v.zip w).map (fun p => (p.1 - p.2) * (p.1 - p.2))).sum

/-- Embeds `cluster_embeddings.mean(axis=0)`: coordinate-wise arithmetic mean. -/
def centroid (vs : List (List ℚ)) : List ℚ :=
  match vs with
  | [] => []
  | v :: rest =>
    (rest.foldl (fun acc w => (acc.zip w).map (fun p => p.1 + p.2)) v).map
      (fun x => x / (vs.length : ℚ))

/-- Embeds `TopologyEngine.get_boundary_articles`: the `n` members of the cluster
farthest from its centroid, paired with their (squared) distances, farthest
first.  `np.argsort` is embedded as a stable sort of the index list; numpy
leaves the order of equal distances unspecified, and no theorem below depends
on that order beyond what the counterexamples pin down concretely. -/
def get_boundary_articles (store : List StoredArticle) (cluster_id : Int)
    (n : Nat) : List (StoredArticle × ℚ) :=
  if store.isEmpty then []
  else
    let members := store.filter (fun r => r.cluster_id == cluster_id)
    if members.isEmpty then []
    else
      let cent := centroid (members.map (·.embedding))
      let dists := members.map (fun r => distSq r.embedding cent)
      let idxs := stableSortBy (fun i j => decide (dists.getD i 0 ≤ dists.getD j 0))
        (List.range members.length)
      let chosen := (idxs.drop (idxs.length - n)).reverse
      chosen.map (fun i => (members.getD i default, dists.getD i 0))

/-! ## `services/feed.py` -/

/-- Embeds `FeedItem` from `models/state.py`. -/
structure FeedItem where
  id : Str
  url : Str
  title : Str
  summary : Str
  tags : List Str
  vendor : Str
  is_primary_source : Bool
  cluster_id : Int
  published_at : Str
  collected_at : Str
  source_plugin : Str

/-- Embeds `FeedSelector._filter_articles`: keep articles whose vendor matches the
filter case-insensitively (`a.get("vendor","").lower() == vendor_filter.lower()`)
and, when `primary_only`, whose `is_primary_source` flag is set.  A `None` or
empty `vendor_filter` is falsy in Python and disables the vendor filter. -/
def filter_articles (articles : List StoredArticle) (vendor_filter : Option Str)
    (primary_only : Bool) : List StoredArticle :=
  let result :=
    match vendor_filter with
    | none => articles
    | some vf =>
      if vf.isEmpty then articles
      else articles.filter (fun a => strLower a.vendor == strLower vf)
  if primary_only then result.filter (fun a => a.is_primary_source) else result

/-- Embeds `FeedSelector._article_to_feed_item`: the stored comma-joined tag string is
split back into stripped, non-empty tags. -/
def article_to_feed_item (a : StoredArticle) : FeedItem :=
  let tags :=
    if a.tags.isEmpty then []
    else ((splitOnChar ',' a.tags).map strStrip).filter (fun t => !t.isEmpty)
  { id := a.id, url := a.url, title := a.original_title, summary := a.summary,
    tags := tags, vendor := a.vendor, is_primary_source := a.is_primary_source,
    cluster_id := a.cluster_id, published_at := a.published_at,
    collected_at := a.collected_at, source_plugin := a.source_plugin }

/-- Embeds `FeedSelector._get_latest_articles`: all records sorted newest first, then
filtered, then paginated by `offset`/`limit`. -/
def get_latest_articles (store : List StoredArticle) (limit : Nat)
    (vendor_filter : Option Str) (primary_only : Bool) (offset : Nat) :
    List FeedItem :=
  if store.isEmpty then []
  else
    let articles := stableSortBy pubDesc store
    let filtered := filter_articles articles vendor_filter primary_only
    ((filtered.drop offset).take limit).map article_to_feed_item

/-- The Thompson-sampled cluster ranking of `generate_feed`: one Beta sample
per arm (abstracted by `samples`), clusters sorted by sample descending.
`sorted(..., key=lambda x: -x[1])` is stable over the arms, which are
enumerated in `ORDER BY cluster_id` order. -/
def sampled_clusters (arms : List ClusterArm) (samples : Int → ℚ) :
    List (Int × ℚ) :=
  stableSortBy (fun x y => decide (y.2 ≤ x.2))
    ((get_all_cluster_arms arms).map (fun a => (a.cluster_id, samples a.cluster_id)))

/-- The main-slot loop of `generate_feed`.  The Python inner loop appends the
slice `filtered[offset : offset + n_from_cluster]` one element at a time,
decrementing `remaining_main` and breaking at zero; since the slice length is
at most `n_from_cluster ≤ remaining_main`, the whole slice is appended and the
net effect is `remaining_main -= len(slice)`. -/
def feed_main_loop (store : List StoredArticle) (vendor_filter : Option Str)
    (primary_only : Bool) (offset : Nat) (per_cluster : Int) :
    List (Int × ℚ) → Int → List FeedItem → List FeedItem
  | [], _, feed_items => feed_items
  | (cid, _) :: rest, remaining, feed_items =>
    if remaining ≤ 0 then feed_items
    else
      let n_from := min per_cluster remaining
      let articles := get_cluster_articles store cid (n_from + offset).toNat true
      let filtered := filter_articles articles vendor_filter primary_only
      let slice := (filtered.drop offset).take n_from.toNat
      feed_main_loop store vendor_filter primary_only offset per_cluster rest
        (remaining - slice.length) (feed_items ++ slice.map article_to_feed_item)

/-- The inner serendipity loop: walk one cluster's filtered boundary articles,
appending those whose id is not in `seen_ids` until the slots run out.
Returns the grown feed, the grown seen set and the remaining slots. -/
def serendipity_inner :
    List StoredArticle → Int → List Str → List FeedItem →
    List FeedItem × List Str × Int
  | [], slots, seen, feed => (feed, seen, slots)
  | a :: rest, slots, seen, feed =>
    if seen.any (fun s => s == a.id) then serendipity_inner rest slots seen feed
    else
      let feed' := feed ++ [article_to_feed_item a]
      let seen' := seen ++ [a.id]
      let slots' := slots - 1
      if slots' ≤ 0 then (feed', seen', slots')
      else serendipity_inner rest slots' seen' feed'

/-- The outer serendipity loop of `generate_feed` over the low-sampled
clusters, requesting `boundary_articles(cluster_id, 3)` from each. -/
def serendipity_loop (store : List StoredArticle) (vendor_filter : Option Str)
    (primary_only : Bool) :
    List (Int × ℚ) → Int → List Str → List FeedItem → List FeedItem
  | [], _, _, feed => feed
  | (cid, _) :: rest, slots, seen, feed =>
    if slots ≤ 0 then feed
    else
      let boundary := (get_boundary_articles store cid 3).map Prod.fst
      let filtered := filter_articles boundary vendor_filter primary_only
      match serendipity_inner filtered slots seen feed with
      | (feed', seen', slots') =>
        serendipity_loop store vendor_filter primary_only rest slots' seen' feed'

/-- Embeds `FeedSelector.generate_feed`.  `samples` abstracts the per-arm
`np.random.beta` draws; `serendipity_slots` is the `settings.serendipity_slots`
value (default 2); `settings.feed_default_limit` is 20. -/
def generate_feed (serendipity_slots : Int) (samples : Int → ℚ)
    (store : List StoredArticle) (arms : List ClusterArm) (limit : Int)
    (vendor_filter : Option Str) (primary_only : Bool) (offset : Nat) :
    List FeedItem :=
  let limit := if limit ≤ 0 then 20 else limit
  let all_arms := get_all_cluster_arms arms
  if all_arms.isEmpty then
    get_latest_articles store limit.toNat vendor_filter primary_only offset
  else
    let sorted_clusters := sampled_clusters arms samples
    let main_slots := limit - serendipity_slots
    let per_cluster := max 1 (main_slots.fdiv (max (sorted_clusters.length : Int) 1))
    let feed_items := feed_main_loop store vendor_filter primary_only offset
      per_cluster sorted_clusters main_slots []
    let feed_items :=
      if serendipity_slots > 0 ∧ sorted_clusters.length > 1 then
        let k := max 3 (sorted_clusters.length / 2)
        let low_clusters := sorted_clusters.drop (sorted_clusters.length - k)
        serendipity_loop store vendor_filter primary_only low_clusters
          serendipity_slots (feed_items.map (·.id)) feed_items
      else feed_items
    feed_items.take limit.toNat

/-- Embeds `FeedSelector.record_action`: look the article up; no-op when it is
missing or is noise; otherwise append one action-log row and then update the
arm, with `success = action in ("click", "bookmark")`. -/
def record_action (now : Str) (store : List StoredArticle)
    (arms : List ClusterArm) (log : List ActionLog) (article_id action : Str) :
    List ClusterArm × List ActionLog :=
  match get_article store article_id with
  | none => (arms, log)
  | some article =>
    if article.cluster_id == -1 then (arms, log)
    else
      let log' := log_action now log article_id action (some article.cluster_id)
      let success := action == str ("click") || action == str ("bookmark")
      (update_arm_reward now arms article.cluster_id success, log')

/-! ## `services/cooccurrence.py` -/

/-- The two fields of `models/article.py`'s `Article` that
`CoOccurrenceService` reads. -/
structure Article where
  id : Str
  tags : List Str

structure TrendingTechnology where
  name : Str
  count : Nat
  related_to : List Str
  sample_article_ids : List Str

/-- Embeds `CoOccurrenceService._normalize_tag`: lowercase and strip, keep the part
after the last `:` (`tag.split(":")[-1]`), then the part before the first `,`
(`tag.split(",")[0]`), stripping after each step. -/
def normalize_tag (tag : Str) : Str :=
  let t := strStrip (strLower tag)
  let t := if t.contains ':' then strStrip ((splitOnChar ':' t).getLastD t) else t
  let t := if t.contains ',' then strStrip ((splitOnChar ',' t).headD t) else t
  t

/-- The entry of the `outside_tags` accumulator dict: a set of related stack
tags, a co-occurrence count and up to three sample article ids. -/
structure CoEntry where
  related_to : List Str
  count : Nat
  article_ids : List Str

/-- Append the members of `new` that are not yet present (the model of
Python's `set.update`; the set is only read through membership and a final
`sorted`, so the representation order is irrelevant). -/
def unionList (s : List Str) (new : List Str) : List Str :=
  new.foldl (fun acc t => if acc.any (· == t) then acc else acc ++ [t]) s

/-- First-occurrence deduplication (the model of building a Python set by
successive `add`s, read only through membership). -/
def dedupFirst (l : List Str) : List Str := unionList [] l

/-- One `outside_tags[tag]` update: bump the count, union the stack hits into
`related_to`, and record the article id while fewer than three are stored. -/
def updateEntry : List (Str × CoEntry) → Str → List Str → Str →
    List (Str × CoEntry)
  | [], tag, hits, aid =>
    [(tag, { related_to := unionList [] hits, count := 1, article_ids := [aid] })]
  | (k, e) :: rest, tag, hits, aid =>
    if k == tag then
      (k, { related_to := unionList e.related_to hits, count := e.count + 1,
            article_ids :=
              if e.article_ids.length < 3 then e.article_ids ++ [aid]
              else e.article_ids }) :: rest
    else (k, e) :: updateEntry rest tag hits aid

/-- Embeds `CoOccurrenceService.analyze` with `self._tech_stack` already lowercased
(the constructor does `{t.lower() for t in tech_stack}`) and
`self._max_results` as `max_results` (default 10). -/
def cooccurrence_analyze (tech_stack : List Str) (max_results : Nat)
    (articles : List Article) : List TrendingTechnology :=
  let stack := dedupFirst (tech_stack.map strLower)
  if stack.isEmpty ∨ articles.isEmpty then []
  else
    let outside_tags := articles.foldl
      (fun acc article =>
        if article.tags.isEmpty then acc
        else
          let normalized_tags :=
            dedupFirst ((article.tags.map normalize_tag).filter (fun t => !t.isEmpty))
          let stack_hits := normalized_tags.filter (fun t => stack.any (· == t))
          if stack_hits.isEmpty then acc
          else
            let outside := normalized_tags.filter (fun t => !(stack.any (· == t)))
            outside.foldl (fun acc2 tag => updateEntry acc2 tag stack_hits article.id) acc)
      []
    let sorted_tags := stableSortBy (fun x y => decide (y.2.count ≤ x.2.count)) outside_tags
    ((sorted_tags.take max_results).filter (fun x => decide (2 ≤ x.2.count))).map
      (fun x =>
        { name := x.1, count := x.2.count,
          related_to := stableSortBy strLe x.2.related_to,
          sample_article_ids := x.2.article_ids })

/-! ## `llm/claude_code.py` -/

/-- A decoded Python JSON value (the result type of `json.loads`, which is
itself abstracted as a `json_loads` parameter below — it is library code, not
repository code). -/
inductive PyVal where
  | vstr : Str → PyVal
  | vnum : Int → PyVal
  | vbool : Bool → PyVal
  | vnull : PyVal
  | vlist : List PyVal → PyVal
  | vobj : List (Str × PyVal) → PyVal

/-- The model of `re.search(r"<fence>\s*(.*?)\s*```", text, re.DOTALL)` for a
literal opening fence: the (stripped) text between the first occurrence of the
fence and the next triple backtick.  The surrounding `\s*` of the pattern only
trims whitespace that `.strip()` removes again, so stripping once is
equivalent. -/
def extract_code_block (fence : Str) (text : Str) : Option Str :=
  match findSub fence text with
  | none => none
  | some (_, after) =>
    match findSub (str ("```")) after with
    | none => none
    | some (content, _) => some (strStrip content)

/-- The balanced-brace scan of `_extract_json`: emit the `(start, end)` pairs
at which `brace_depth` returns to zero while a start index is armed; after
each emitted candidate the start index is cleared (`start_idx = None`), which
is what the Python loop does whether or not the candidate parses. -/
def brace_scan : Str → Nat → Int → Option Nat → List (Nat × Nat)
  | [], _, _, _ => []
  | c :: cs, i, depth, start =>
    if c = '{' then
      brace_scan cs (i + 1) (depth + 1) (if depth == 0 then some i else start)
    else if c = '}' then
      match start with
      | some s =>
        if depth - 1 == 0 then (s, i) :: brace_scan cs (i + 1) (depth - 1) none
        else brace_scan cs (i + 1) (depth - 1) start
      | none => brace_scan cs (i + 1) (depth - 1) none
    else brace_scan cs (i + 1) depth start

/-- The candidate substrings `text[start_idx : i + 1]` tried by the
balanced-brace stage, in order. -/
def brace_candidates (text : Str) : List Str :=
  (brace_scan text 0 0 none).map (fun p => (text.drop p.1).take (p.2 + 1 - p.1))

/-- Try `json.loads` on each candidate in order, returning the first success
(the Python loop returns on the first parseable candidate and continues on
`JSONDecodeError`). -/
def try_parse_candidates (json_loads : Str → Option PyVal) :
    List Str → Option PyVal
  | [] => none
  | c :: rest =>
    match json_loads c with
    | some v => some v
    | none => try_parse_candidates json_loads rest

/-- Embeds `ClaudeCodeProvider._extract_json`: strip, then try in order a direct
parse, a ```json fenced block, a plain ``` fenced block, and the
balanced-brace candidates.  `none` models the final `raise ValueError`. -/
def extract_json (json_loads : Str → Option PyVal) (text : Str) : Option PyVal :=
  let text := strStrip text
  match json_loads text with
  | some v => some v
  | none =>
    match (match extract_code_block (str ("```json")) text with
           | some c => json_loads c
           | none => none) with
    | some v => some v
    | none =>
      match (match extract_code_block (str ("```")) text with
             | some c => json_loads c
             | none => none) with
      | some v => some v
      | none => try_parse_candidates json_loads (brace_candidates text)

/-- Embeds `SummaryResult` from `llm/base.py` (exactly these four fields). -/
structure SummaryResult where
  title : Str
  content : Str
  diff_description : Option Str
  explanation : Option Str

/-- Embeds `TagResult` from `llm/base.py`. -/
structure TagResult where
  tags : List Str
  vendor_services : List Str

/-- Embeds `ProcessingResult` from `llm/base.py`; `relevance`, `provider`, `model`
and `processing_time_ms` keep their defaults on every path modeled here. -/
structure ProcessingResult where
  summary : SummaryResult
  tags : TagResult

/-- The success branch of `ClaudeCodeProvider.analyze` constructs
`SummaryResult(title=…, content=…, diff_description=…, explanation=…,
related_technologies=…, tech_stack_connection=…)`, but the `SummaryResult`
dataclass in `llm/base.py` declares only the first four fields, so the call
raises `TypeError` for every parsed value and the surrounding `except`
falls back; hence this branch never yields a result. -/
def build_parsed_result (_data : PyVal) : Option ProcessingResult := none

/-- The response handling of `ClaudeCodeProvider.analyze` (everything after
`_run_claude` returns): try `_extract_json` and the result construction, and
on any failure return the fallback minimal result. -/
def analyze_response (title content vendor : Str)
    (json_loads : Str → Option PyVal) (response : Str) : ProcessingResult :=
  let parsed : Option ProcessingResult :=
    match extract_json json_loads response with
    | some data => build_parsed_result data
    | none => none
  match parsed with
  | some r => r
  | none =>
    { summary := { title := title,
                   content := if response.isEmpty then content.take 200
                              else response.take 500,
                   diff_description := none, explanation := none },
      tags := { tags := [strLower vendor], vendor_services := [] } }

/-! ## `plugins/builtin/github_releases.py` -/

/-- One decoded release object of the GitHub API response.  `published_at`
models the result of `_parse_datetime` (an instant, or `None` when the field
is missing or unparseable); `draft` and `prerelease` fold the `.get(…, False)`
defaults in. -/
structure Release where
  id : Option Int
  tag_name : Option Str
  name : Option Str
  body : Option Str
  draft : Bool
  prerelease : Bool
  html_url : Option Str
  published_at : Option Int

/-- The `metadata` dict attached by the plugin. -/
structure GHMetadata where
  source : Str
  repository : Str
  tag_name : Str
  prerelease : Bool

/-- Embeds `RawArticle` from `plugins/base.py` (with this plugin's metadata shape). -/
structure RawArticle where
  external_id : Str
  primary_source_url : Str
  original_title : Str
  original_content : Str
  published_at : Option Int
  vendor : Str
  categories : List Str
  metadata : GHMetadata

/-- The outcome of `client.get` for one repository: a status code with the
decoded JSON body, or a raised exception (timeouts, connection errors,
undecodable bodies). -/
inductive RepoResponse where
  | ok : Nat → List Release → RepoResponse
  | exn : RepoResponse

/-- The `continue` filters of the per-release loop: drop releases published
before `since` (when both instants are known) and drafts. -/
def keep_release (since : Option Int) (release : Release) : Bool :=
  let skip_since :=
    match since, release.published_at with
    | some s, some p => decide (p < s)
    | _, _ => false
  !skip_since && !release.draft

/-- The body of the per-release loop of `_fetch_repo_releases`: build one
`RawArticle` from a kept release. -/
def release_to_article (repo : Str) (release : Release) : RawArticle :=
  let tag_name := release.tag_name.getD []
  let release_name := release.name.getD tag_name
  let body := release.body.getD []
  let repo_name := (splitOnChar '/' repo).getLastD repo
  let title :=
    if release_name.isEmpty then repo_name ++ str (" ") ++ tag_name
    else repo_name ++ str (" ") ++ release_name
  let content_parts : List Str := if body.isEmpty then [] else [body]
  let content_parts :=
    if release.prerelease then str ("[Pre-release]") :: content_parts
    else content_parts
  let content :=
    if content_parts.isEmpty then str ("Release ") ++ tag_name
    else List.intercalate (str ("\n\n")) content_parts
  let repo_lower := strLower repo
  let categories :=
    [str ("release"), str ("github")] ++
      (if strContainsSub repo_lower (str ("langchain")) then
        [str ("ai"), str ("llm")]
      else if strContainsSub repo_lower (str ("openai")) ||
          strContainsSub repo_lower (str ("anthropic")) then
        [str ("ai"), str ("sdk")]
      else if strContainsSub repo_lower (str ("terraform")) then
        [str ("infrastructure"), str ("iac")]
      else if strContainsSub repo_lower (str ("kubernetes")) ||
          strContainsSub repo_lower (str ("docker")) then
        [str ("containers"), str ("infrastructure")]
      else if strContainsSub repo_lower (str ("fastapi")) then
        [str ("python"), str ("api")]
      else if strContainsSub repo_lower (str ("next")) ||
          strContainsSub repo_lower (str ("vite")) then
        [str ("javascript"), str ("frontend")]
      else [])
  { external_id := str ("github-") ++ repo ++ str ("-") ++
      (match release.id with
       | some n => (toString n).data
       | none => tag_name),
    primary_source_url :=
      release.html_url.getD (str ("https://github.com/") ++ repo ++ str ("/releases")),
    original_title := title,
    original_content := content.take 5000,
    published_at := release.published_at,
    vendor := str ("GitHub OSS"),
    categories := categories,
    metadata := { source := str ("github-releases"), repository := repo,
                  tag_name := tag_name, prerelease := release.prerelease } }

/-- Embeds `GitHubReleasesPlugin._fetch_repo_releases`: a 404 returns no articles; a
`raise_for_status` error (any status ≥ 400) raises `httpx.HTTPStatusError`,
which the per-repo handler swallows after zero articles were accumulated; any
other exception is swallowed the same way (`except Exception: pass`); on
success the kept releases are converted in order. -/
def fetch_repo_releases (client : Str → RepoResponse) (since : Option Int)
    (repo : Str) : List RawArticle :=
  match client repo with
  | .exn => []
  | .ok status releases =>
    if status == 404 then []
    else if 400 ≤ status then []
    else (releases.filter (keep_release since)).map (release_to_article repo)

/-- Embeds `datetime.min` with UTC timezone, as the instant used for missing
publication dates during the final sort. -/
def github_datetime_min : Int := -62135596800

/-- Embeds `GitHubReleasesPlugin.fetch_updates`: concatenate the per-repository
results in configuration order and sort newest first (stable).  The enclosing
`try`/`except FetchError` of the source can only fire on a failure of the
HTTP-client construction itself; every per-repository failure is already
swallowed inside `_fetch_repo_releases`, so this embedding always returns
`Except.ok`. -/
def fetch_updates (client : Str → RepoResponse) (repositories : List Str)
    (since : Option Int) : Except Str (List RawArticle) :=
  let all_articles :=
    repositories.foldl (fun acc repo => acc ++ fetch_repo_releases client since repo) []
  .ok (stableSortBy
    (fun a b => decide ((b.published_at.getD github_datetime_min) ≤
      (a.published_at.getD github_datetime_min))) all_articles)

/-! ## A concrete `json.loads` instance

The repository calls the standard-library `json.loads`; the definitions above
take it as a parameter.  For closed theorems a concrete instance is needed, so
a small fuelled JSON reader is defined here: it understands `null`, booleans,
integers, escape-free strings, arrays and objects, which covers the concrete
inputs appearing in the theorems below. -/

def skipWs (s : Str) : Str :=
  s.dropWhile (fun c => c == ' ' || c == '\n' || c == '\t' || c == '\r')

def digitsToNat (s : Str) : Nat := s.foldl (fun n c => n * 10 + (c.toNat - 48)) 0

def parseStringLit (s : Str) : Option (Str × Str) :=
  let content := s.takeWhile (fun c => !(c == '"') && !(c == '\\'))
  let rest := s.drop content.length
  match rest with
  | '"' :: tail => some (content, tail)
  | _ => none

def parseNum (s : Str) : Option (PyVal × Str) :=
  match s with
  | '-' :: rest =>
    let digits := rest.takeWhile Char.isDigit
    if digits.isEmpty then none
    else some (.vnum (-(digitsToNat digits : Int)), rest.drop digits.length)
  | _ =>
    let digits := s.takeWhile Char.isDigit
    if digits.isEmpty then none
    else some (.vnum (digitsToNat digits), s.drop digits.length)

mutual

def parseVal : Nat → Str → Option (PyVal × Str)
  | 0, _ => none
  | fuel + 1, s =>
    match skipWs s with
    | [] => none
    | c :: rest =>
      if c = 'n' then
        if (str ("ull")).isPrefixOf rest then some (.vnull, rest.drop 3) else none
      else if c = 't' then
        if (str ("rue")).isPrefixOf rest then some (.vbool true, rest.drop 3) else none
      else if c = 'f' then
        if (str ("alse")).isPrefixOf rest then some (.vbool false, rest.drop 4) else none
      else if c = '"' then
        match parseStringLit rest with
        | some (v, rest2) => some (.vstr v, rest2)
        | none => none
      else if c = '[' then
        match skipWs rest with
        | ']' :: rest2 => some (.vlist [], rest2)
        | s2 => parseArrayItems fuel s2 []
      else if c = '{' then
        match skipWs rest with
        | '}' :: rest2 => some (.vobj [], rest2)
        | s2 => parseObjItems fuel s2 []
      else if c = '-' || c.isDigit then parseNum (c :: rest)
      else none

def parseArrayItems : Nat → Str → List PyVal → Option (PyVal × Str)
  | 0, _, _ => none
  | fuel + 1, s, acc =>
    match parseVal fuel s with
    | none => none
    | some (v, rest) =>
      match skipWs rest with
      | ',' :: rest2 => parseArrayItems fuel rest2 (acc ++ [v])
      | ']' :: rest2 => some (.vlist (acc ++ [v]), rest2)
      | _ => none

def parseObjItems : Nat → Str → List (Str × PyVal) → Option (PyVal × Str)
  | 0, _, _ => none
  | fuel + 1, s, acc =>
    match skipWs s with
    | '"' :: rest =>
      match parseStringLit rest with
      | none => none
      | some (key, rest2) =>
        match skipWs rest2 with
        | ':' :: rest3 =>
          match parseVal fuel rest3 with
          | none => none
          | some (v, rest4) =>
            match skipWs rest4 with
            | ',' :: rest5 => parseObjItems fuel rest5 (acc ++ [(key, v)])
            | '}' :: rest5 => some (.vobj (acc ++ [(key, v)]), rest5)
            | _ => none
        | _ => none
    | _ => none

end

/-- A concrete stand-in for `json.loads`: parse one value and require only
trailing whitespace after it. -/
def json_loads_lite (s : Str) : Option PyVal :=
  match parseVal (s.length + 1) s with
  | some (v, rest) => if (skipWs rest).isEmpty then some v else none
  | none => none

/-- The vendor-filter guarantee of a feed page: when a non-empty vendor filter
was given, every item's vendor matches it case-insensitively. -/
def VendorOK (vendor_filter : Option Str) (items : List FeedItem) : Prop :=
  ∀ v, vendor_filter = some v → v.isEmpty = false →
    ∀ it ∈ items, strLower it.vendor = strLower v

instance : Inhabited ClusterArm :=
  ⟨{ cluster_id := -1, alpha := 1, beta := 1, article_count := 0,
     label := [], updated_at := [] }⟩

/-- What one reward update must do to the arm table: same number of rows; the
row keyed by `cid` gains `+1` on `alpha` when `success` (with `beta`
untouched) and `+1` on `beta` otherwise (with `alpha` untouched); every other
row is unchanged. -/
def ArmUpdateOK (arms new_arms : List ClusterArm) (cid : Int) (success : Bool) :
    Prop :=
  new_arms.length = arms.length ∧
  ∀ i, i < arms.length →
    ((arms.getD i default).cluster_id = cid →
      (success = true →
        (new_arms.getD i default).alpha = (arms.getD i default).alpha + 1 ∧
        (new_arms.getD i default).beta = (arms.getD i default).beta) ∧
      (success = false →
        (new_arms.getD i default).beta = (arms.getD i default).beta + 1 ∧
        (new_arms.getD i default).alpha = (arms.getD i default).alpha)) ∧
    ((arms.getD i default).cluster_id ≠ cid →
      new_arms.getD i default = arms.getD i default)

/-! ## General lemmas -/

theorem strLe_total (s t : Str) : strLe s t = true ∨ strLe t s = true := by
  induction s generalizing t with
  | nil => left; rfl
  | cons a s ih =>
    cases t with
    | nil => right; rfl
    | cons b t' =>
      by_cases hab : a < b
      · left; simp [strLe, hab]
      · by_cases hba : b < a
        · right; simp [strLe, hba]
        · rcases ih t' with h | h
          · left; simp [strLe, hab, hba, h]
          · right; simp [strLe, hba, hab, h]

theorem strLe_trans (s t u : Str) (h1 : strLe s t = true) (h2 : strLe t u = true) :
    strLe s u = true := by
  induction s generalizing t u with
  | nil => rfl
  | cons a s ih =>
    cases t with
    | nil => simp [strLe] at h1
    | cons b t' =>
      cases u with
      | nil => simp [strLe] at h2
      | cons c u' =>
        simp only [strLe] at h1 h2 ⊢
        by_cases hab : a < b <;> by_cases hbc : b < c
        · have : a < c := lt_trans hab hbc
          simp [this]
        · simp only [hbc, if_false] at h2
          by_cases hcb : c < b
          · simp [hcb] at h2
          · have hbc' : b = c := le_antisymm (not_lt.mp hcb) (not_lt.mp hbc)
            subst hbc'
            simp [hab]
        · simp only [hab, if_false] at h1
          by_cases hba : b < a
          · simp [hba] at h1
          · have hab' : a = b := le_antisymm (not_lt.mp hba) (not_lt.mp hab)
            subst hab'
            simp [hbc]
        · simp only [hab, if_false] at h1
          simp only [hbc, if_false] at h2
          by_cases hba : b < a
          · simp [hba] at h1
          · by_cases hcb : c < b
            · simp [hcb] at h2
            · have hab' : a = b := le_antisymm (not_lt.mp hba) (not_lt.mp hab)
              have hbc' : b = c := le_antisymm (not_lt.mp hcb) (not_lt.mp hbc)
              subst hab'; subst hbc'
              simp only [lt_irrefl, if_false] at h1 h2 ⊢
              exact ih t' u' h1 h2

theorem strLe_refl (s : Str) : strLe s s = true := by
  induction s with
  | nil => rfl
  | cons a s ih => simp [strLe, lt_irrefl, ih]

theorem pubDesc_total (a b : StoredArticle) : pubDesc a b = true ∨ pubDesc b a = true :=
  (strLe_total b.published_at a.published_at).imp id id

theorem pubDesc_trans (a b c : StoredArticle) (h1 : pubDesc a b = true)
    (h2 : pubDesc b c = true) : pubDesc a c = true :=
  strLe_trans c.published_at b.published_at a.published_at h2 h1

theorem mem_of_any_beq {l : List Str} {x : Str}
    (h : l.any (fun y => y == x) = true) : x ∈ l := by
  rcases List.any_eq_true.mp h with ⟨y, hy, he⟩
  rwa [← beq_iff_eq.mp he]

theorem any_beq_of_mem {l : List Str} {x : Str} (h : x ∈ l) :
    l.any (fun y => y == x) = true :=
  List.any_eq_true.mpr ⟨x, h, beq_iff_eq.mpr rfl⟩

/-! ## Lemmas about the topology queries -/

theorem mem_get_cluster_articles {store : List StoredArticle} {cluster_id : Int}
    {n : Nat} {nf : Bool} {r : StoredArticle}
    (h : r ∈ get_cluster_articles store cluster_id n nf) :
    r ∈ store ∧ r.cluster_id = cluster_id := by
  unfold get_cluster_articles at h
  have h1 := (List.take_sublist _ _).mem h
  have h2 : r ∈ store.filter (fun r => r.cluster_id == cluster_id) := by
    cases nf with
    | true => exact mem_stableSortBy.mp (by simpa using h1)
    | false => simpa using h1
  rcases List.mem_filter.mp h2 with ⟨hmem, hcid⟩
  exact ⟨hmem, beq_iff_eq.mp hcid⟩

theorem nodup_ids_get_cluster_articles {store : List StoredArticle}
    {cluster_id : Int} {n : Nat} {nf : Bool}
    (h : (store.map (·.id)).Nodup) :
    ((get_cluster_articles store cluster_id n nf).map (·.id)).Nodup := by
  unfold get_cluster_articles
  have hfilter : ((store.filter (fun r => r.cluster_id == cluster_id)).map (·.id)).Nodup :=
    h.sublist ((List.filter_sublist store).map _)
  have hsorted : ∀ l : List StoredArticle, (l.map (·.id)).Nodup →
      ((stableSortBy pubDesc l).map (·.id)).Nodup :=
    fun l hl => hl.perm ((stableSortBy_perm pubDesc l).map _).symm
  cases nf with
  | true =>
    exact (hsorted _ hfilter).sublist ((List.take_sublist _ _).map _)
  | false =>
    exact hfilter.sublist ((List.take_sublist _ _).map _)

theorem mem_get_boundary_articles {store : List StoredArticle} {cluster_id : Int}
    {n : Nat} {p : StoredArticle × ℚ}
    (h : p ∈ get_boundary_articles store cluster_id n) :
    p.1 ∈ store ∧ p.1.cluster_id = cluster_id := by
  unfold get_boundary_articles at h
  by_cases hs : store.isEmpty
  · simp [hs] at h
  · simp only [hs, if_false, Bool.false_eq_true] at h
    set members := store.filter (fun r => r.cluster_id == cluster_id) with hm
    by_cases hmem : members.isEmpty
    · simp [hmem] at h
    · simp only [hmem, if_false, Bool.false_eq_true] at h
      rcases List.mem_map.mp h with ⟨i, hi, hpi⟩
      have hrange : i ∈ List.range members.length := by
        have h1 := (List.drop_sublist _ _).mem (List.mem_reverse.mp hi)
        exact mem_stableSortBy.mp h1
      have hlt : i < members.length := List.mem_range.mp hrange
      have hget : members.getD i default ∈ members := by
        rw [List.getD_eq_getElem members default hlt]
        exact List.getElem_mem hlt
      have hp1 : p.1 = members.getD i default := by rw [← hpi]
      rw [hp1]
      rcases List.mem_filter.mp hget with ⟨hmem2, hcid⟩
      exact ⟨hmem2, beq_iff_eq.mp hcid⟩

/-! ## Lemmas about ingestion -/

theorem embed_and_store_all_new (embed : Str → List ℚ) (now : Str)
    (store : List StoredArticle) (I : List ProcessedArticle) (hI : I ≠ [])
    (h : ∀ a ∈ I, store.any (fun r => r.id == a.external_id) = false) :
    embed_and_store embed now store I =
      (I.length, store ++ I.map (to_stored embed now)) := by
  have hne : I.isEmpty = false := by simp [List.isEmpty_iff, hI]
  have hfilter : I.filter (fun a => !(store.any (fun r => r.id == a.external_id))) = I :=
    List.filter_eq_self.mpr (fun a ha => by rw [h a ha]; rfl)
  simp only [embed_and_store, hne, Bool.false_eq_true, if_false, hfilter]

theorem embed_and_store_all_dup (embed : Str → List ℚ) (now : Str)
    (store : List StoredArticle) (I : List ProcessedArticle)
    (h : ∀ a ∈ I, store.any (fun r => r.id == a.external_id) = true) :
    embed_and_store embed now store I = (0, store) := by
  by_cases hI : I = []
  · subst hI; simp [embed_and_store]
  · have hne : I.isEmpty = false := by simp [List.isEmpty_iff, hI]
    have hfilter :
        I.filter (fun a => !(store.any (fun r => r.id == a.external_id))) = [] :=
      List.filter_eq_nil_iff.mpr (fun a ha => by rw [h a ha]; simp)
    simp [embed_and_store, hne, hfilter]

/-- C2: ingestion is deduplicating and idempotent — from an empty store,
`ingest(I)` stores all of `I` and returns `|I|`; running `ingest(I)` again
stores nothing, returns `0`, and leaves the store unchanged with exactly `|I|`
items. -/
theorem C2_ingest_idempotent (embed : Str → List ℚ) (now1 now2 : Str)
    (I : List ProcessedArticle)
    (hids : (I.map (·.external_id)).Nodup) :
    (embed_and_store embed now1 [] I).1 = I.length ∧
    (embed_and_store embed now1 [] I).2.length = I.length ∧
    (embed_and_store embed now2 (embed_and_store embed now1 [] I).2 I).1 = 0 ∧
    (embed_and_store embed now2 (embed_and_store embed now1 [] I).2 I).2 =
      (embed_and_store embed now1 [] I).2 := by
  by_cases hI : I = []
  · subst hI; simp [embed_and_store]
  · have e1 : embed_and_store embed now1 [] I =
        (I.length, I.map (to_stored embed now1)) := by
      rw [embed_and_store_all_new embed now1 [] I hI (fun a _ => by simp)]
      simp
    have e2 : embed_and_store embed now2 (I.map (to_stored embed now1)) I =
        (0, I.map (to_stored embed now1)) := by
      refine embed_and_store_all_dup embed now2 _ I (fun a ha => ?_)
      refine List.any_eq_true.mpr ⟨to_stored embed now1 a, List.mem_map_of_mem _ ha, ?_⟩
      exact beq_iff_eq.mpr rfl
    refine ⟨by rw [e1], by rw [e1]; simp, ?_, ?_⟩
    · rw [e1]; rw [e2]
    · rw [e1]; rw [e2]

/-- C1: the claim says `recluster` leaves the `alpha`/`beta` of an existing
arm unchanged and only refreshes `article_count`; the code disagrees — the
`ON CONFLICT` clause of `upsert_cluster_arm` overwrites `alpha` and `beta`
with the call's Python-default `1.0`, so a recluster resets a learned arm
`(α=5, β=2)` back to `(1, 1)`.  This theorem evaluates the embedding at that
failing input. -/
theorem C1_recluster_resets_existing_arm :
    recluster 5 (fun _ => []) (str ("t1"))
      [{ (default : StoredArticle) with id := str ("a1") }]
      [{ cluster_id := 0, alpha := 5, beta := 2, article_count := 3,
         label := [], updated_at := str ("t0") }] =
    ([{ (default : StoredArticle) with id := str ("a1"), cluster_id := 0 }],
     [{ cluster_id := 0, alpha := 1, beta := 1, article_count := 1,
        label := [], updated_at := str ("t1") }],
     [(0, 1)]) := rfl

/-- Witness for C2 at a concrete two-article batch. -/
theorem C2_ingest_idempotent_witness :
    (([⟨str ("a"), [], [], [], [], [], false, [], [], []⟩,
       ⟨str ("b"), [], [], [], [], [], false, [], [], []⟩] :
        List ProcessedArticle).map (·.external_id)).Nodup ∧
    ((embed_and_store (fun _ => []) (str ("t1")) []
        [⟨str ("a"), [], [], [], [], [], false, [], [], []⟩,
         ⟨str ("b"), [], [], [], [], [], false, [], [], []⟩]).1 = 2 ∧
     (embed_and_store (fun _ => []) (str ("t1")) []
        [⟨str ("a"), [], [], [], [], [], false, [], [], []⟩,
         ⟨str ("b"), [], [], [], [], [], false, [], [], []⟩]).2.length = 2 ∧
     (embed_and_store (fun _ => []) (str ("t2"))
        (embed_and_store (fun _ => []) (str ("t1")) []
          [⟨str ("a"), [], [], [], [], [], false, [], [], []⟩,
           ⟨str ("b"), [], [], [], [], [], false, [], [], []⟩]).2
        [⟨str ("a"), [], [], [], [], [], false, [], [], []⟩,
         ⟨str ("b"), [], [], [], [], [], false, [], [], []⟩]).1 = 0 ∧
     (embed_and_store (fun _ => []) (str ("t2"))
        (embed_and_store (fun _ => []) (str ("t1")) []
          [⟨str ("a"), [], [], [], [], [], false, [], [], []⟩,
           ⟨str ("b"), [], [], [], [], [], false, [], [], []⟩]).2
        [⟨str ("a"), [], [], [], [], [], false, [], [], []⟩,
         ⟨str ("b"), [], [], [], [], [], false, [], [], []⟩]).2 =
       (embed_and_store (fun _ => []) (str ("t1")) []
          [⟨str ("a"), [], [], [], [], [], false, [], [], []⟩,
           ⟨str ("b"), [], [], [], [], [], false, [], [], []⟩]).2) :=
  ⟨by decide, C2_ingest_idempotent (fun _ => []) (str ("t1")) (str ("t2")) _ (by decide)⟩

/-- C6 counterexample: the claim says noise records are excluded from cluster
queries for every `cluster_id` argument, including `-1` itself; but
`get_cluster_articles` filters by equality with the argument, so querying
`-1` returns exactly the noise records. -/
theorem C6_counterexample :
    get_cluster_articles [{ (default : StoredArticle) with id := str ("x") }]
        (-1) 10 true =
      [{ (default : StoredArticle) with id := str ("x") }] ∧
    ({ (default : StoredArticle) with id := str ("x") } : StoredArticle).cluster_id
      = -1 :=
  ⟨rfl, rfl⟩

/-- C6 amended: records with `cluster_id = -1` never appear in the results of
`get_cluster_articles` or `get_boundary_articles` for any queried cluster id
other than `-1`; querying `-1` itself returns the noise records. -/
theorem C6_noise_excluded (store : List StoredArticle) (cid : Int) (n : Nat)
    (nf : Bool) (h : cid ≠ -1) :
    (∀ r ∈ get_cluster_articles store cid n nf, r.cluster_id ≠ -1) ∧
    (∀ p ∈ get_boundary_articles store cid n, p.1.cluster_id ≠ -1) := by
  constructor
  · intro r hr
    rw [(mem_get_cluster_articles hr).2]; exact h
  · intro p hp
    rw [(mem_get_boundary_articles hp).2]; exact h

/-- Witness for C6 at a concrete store and cluster id. -/
theorem C6_noise_excluded_witness :
    ((0 : Int) ≠ -1) ∧
    ((∀ r ∈ get_cluster_articles
        [{ (default : StoredArticle) with id := str ("x") }] 0 5 true,
        r.cluster_id ≠ -1) ∧
     (∀ p ∈ get_boundary_articles
        [{ (default : StoredArticle) with id := str ("x") }] 0 5,
        p.1.cluster_id ≠ -1)) :=
  ⟨by decide,
   C6_noise_excluded [{ (default : StoredArticle) with id := str ("x") }] 0 5 true
     (by decide)⟩

/-- C5 counterexample: two cluster-0 records share a `published_at`; the store
holds id `"b"` before id `"a"`.  The claim says the `published_at` tie is
broken by `external_id` ascending (so `"a"` first); the code's stable sort
keeps the store order and returns `"b"` first. -/
theorem C5_counterexample :
    (get_cluster_articles
        [{ (default : StoredArticle) with
            id := str ("b"), cluster_id := 0, published_at := str ("2024") },
         { (default : StoredArticle) with
            id := str ("a"), cluster_id := 0, published_at := str ("2024") }]
        0 10 true).map (·.id) = [str ("b"), str ("a")] ∧
    strLe (str ("a")) (str ("b")) = true ∧ str ("a") ≠ str ("b") :=
  ⟨rfl, rfl, by decide⟩

/-- C5 amended: `get_cluster_articles` with `newest_first` sorts by
`published_at` descending, but ties are kept in store (insertion) order — not
re-ordered by `external_id`; `get_boundary_articles` ranks by distance from
the centroid descending, ties likewise not re-ordered by `external_id`.  The
first conjunct states the descending sort; the second states tie stability
(restricting the page to any fixed `published_at` yields a sublist of the
cluster members in store order); the third states the descending distances. -/
theorem C5_ordering (store : List StoredArticle) (cid : Int) (n : Nat) :
    (get_cluster_articles store cid n true).Pairwise
      (fun a b => pubDesc a b = true) ∧
    (∀ t : Str, List.Sublist
      ((get_cluster_articles store cid n true).filter
        (fun r => r.published_at == t))
      (store.filter (fun r => r.cluster_id == cid))) ∧
    (get_boundary_articles store cid n).Pairwise (fun p q => q.2 ≤ p.2) := by
  have hdef : get_cluster_articles store cid n true =
      List.take n (stableSortBy pubDesc
        (store.filter (fun r => r.cluster_id == cid))) := rfl
  refine ⟨?_, ?_, ?_⟩
  · rw [hdef]
    refine (stableSortBy_pairwise pubDesc pubDesc_total pubDesc_trans _).sublist
      (List.take_sublist _ _)
  · intro t
    rw [hdef]
    have hstable := stableSortBy_filter pubDesc
      (fun r => r.published_at == t)
      (store.filter (fun r => r.cluster_id == cid))
      (fun a b ha hb => by
        have ha' := beq_iff_eq.mp ha
        have hb' := beq_iff_eq.mp hb
        unfold pubDesc
        rw [ha', hb']
        exact strLe_refl t)
    have h1 :
        List.Sublist
          ((List.take n (stableSortBy pubDesc
              (store.filter (fun r => r.cluster_id == cid)))).filter
            (fun r => r.published_at == t))
          ((stableSortBy pubDesc
              (store.filter (fun r => r.cluster_id == cid))).filter
            (fun r => r.published_at == t)) :=
      (List.take_sublist _ _).filter _
    rw [hstable] at h1
    exact h1.trans (List.filter_sublist _)
  · unfold get_boundary_articles
    by_cases hs : store.isEmpty
    · simp [hs]
    · simp only [hs, Bool.false_eq_true, if_false]
      set members := store.filter (fun r => r.cluster_id == cid) with hm
      by_cases hmem : members.isEmpty
      · simp [hmem]
      · simp only [hmem, Bool.false_eq_true, if_false]
        set dists := members.map
          (fun r => distSq r.embedding (centroid (members.map (·.embedding)))) with hd
        have hsorted : (stableSortBy
            (fun i j => decide (dists.getD i 0 ≤ dists.getD j 0))
            (List.range members.length)).Pairwise
            (fun i j => (decide (dists.getD i 0 ≤ dists.getD j 0)) = true) :=
          stableSortBy_pairwise
            (fun i j => decide (dists.getD i 0 ≤ dists.getD j 0))
            (fun i j => by
              rcases le_total (dists.getD i 0) (dists.getD j 0) with h | h
              · left; exact decide_eq_true h
              · right; exact decide_eq_true h)
            (fun i j k hij hjk =>
              decide_eq_true (le_trans (of_decide_eq_true hij) (of_decide_eq_true hjk)))
            (List.range members.length)
        set idxs := stableSortBy (fun i j => decide (dists.getD i 0 ≤ dists.getD j 0))
          (List.range members.length) with hidx
        have hdrop := hsorted.sublist (List.drop_sublist (idxs.length - n) idxs)
        have hrev := List.pairwise_reverse.mpr hdrop
        refine List.pairwise_map.mpr ?_
        refine hrev.imp ?_
        intro i j hij
        exact of_decide_eq_true hij

theorem update_arm_reward_ok (now : Str) (arms : List ClusterArm) (cid : Int)
    (success : Bool) :
    ArmUpdateOK arms (update_arm_reward now arms cid success) cid success := by
  refine ⟨by simp [update_arm_reward], ?_⟩
  intro i hi
  have hlen : i < (update_arm_reward now arms cid success).length := by
    simpa [update_arm_reward] using hi
  rw [List.getD_eq_getElem (update_arm_reward now arms cid success) default hlen,
      List.getD_eq_getElem arms default hi]
  simp only [update_arm_reward, List.getElem_map]
  constructor
  · intro hcid
    have hbeq : ((arms.get ⟨i, hi⟩).cluster_id == cid) = true := by
      rw [List.get_eq_getElem]
      exact beq_iff_eq.mpr hcid
    rw [List.get_eq_getElem] at hbeq
    refine ⟨fun hsucc => ?_, fun hsucc => ?_⟩ <;> subst hsucc <;> simp [hbeq]
  · intro hcid
    have hbeq : ((arms.get ⟨i, hi⟩).cluster_id == cid) = false := by
      rw [List.get_eq_getElem]
      simp [hcid]
    rw [List.get_eq_getElem] at hbeq
    simp [hbeq]

/-- C4: `record_action` is a no-op when the article is missing or is noise
(`cluster_id = -1`); otherwise exactly one action-log row is appended and the
article's cluster arm is updated — `alpha + 1` for `click`/`bookmark`,
`beta + 1` for `skip` — with the other Beta parameter and all other arms
unchanged. -/
theorem C4_record_action (now : Str) (store : List StoredArticle)
    (arms : List ClusterArm) (log : List ActionLog) (article_id action : Str) :
    (get_article store article_id = none →
      record_action now store arms log article_id action = (arms, log)) ∧
    (∀ a, get_article store article_id = some a → a.cluster_id = -1 →
      record_action now store arms log article_id action = (arms, log)) ∧
    (∀ a, get_article store article_id = some a → a.cluster_id ≠ -1 →
      (record_action now store arms log article_id action).2 =
        log ++ [{ id := log.length + 1, article_id := article_id,
                  action := action, cluster_id := some a.cluster_id,
                  created_at := now }] ∧
      ((action = str ("click") ∨ action = str ("bookmark")) →
        ArmUpdateOK arms (record_action now store arms log article_id action).1
          a.cluster_id true) ∧
      (action = str ("skip") →
        ArmUpdateOK arms (record_action now store arms log article_id action).1
          a.cluster_id false)) := by
  refine ⟨fun h => by simp [record_action, h], fun a h ha => ?_, fun a h ha => ?_⟩
  · have hbeq : (a.cluster_id == -1) = true := beq_iff_eq.mpr ha
    simp [record_action, h, hbeq]
  · have hbeq : (a.cluster_id == -1) = false := by simp [ha]
    refine ⟨by simp [record_action, h, hbeq, log_action], ?_, ?_⟩
    · intro hact
      have hsuccess : (action == str ("click") || action == str ("bookmark")) = true := by
        rcases hact with h1 | h1 <;> subst h1 <;> simp
      have hres : (record_action now store arms log article_id action).1 =
          update_arm_reward now arms a.cluster_id true := by
        simp [record_action, h, hbeq, hsuccess]
      rw [hres]
      exact update_arm_reward_ok now arms a.cluster_id true
    · intro hact
      have hsuccess : (action == str ("click") || action == str ("bookmark")) = false := by
        subst hact; decide
      have hres : (record_action now store arms log article_id action).1 =
          update_arm_reward now arms a.cluster_id false := by
        simp [record_action, h, hbeq, hsuccess]
      rw [hres]
      exact update_arm_reward_ok now arms a.cluster_id false

/-- Witness for C4: a click on an article of cluster 2. -/
theorem C4_record_action_witness :
    get_article [{ (default : StoredArticle) with id := str ("x"), cluster_id := 2 }]
        (str ("x")) =
      some { (default : StoredArticle) with id := str ("x"), cluster_id := 2 } ∧
    ({ (default : StoredArticle) with id := str ("x"), cluster_id := 2 } :
      StoredArticle).cluster_id ≠ -1 ∧
    (str ("click") = str ("click") ∨ str ("click") = str ("bookmark")) ∧
    (record_action (str ("t"))
        [{ (default : StoredArticle) with id := str ("x"), cluster_id := 2 }]
        [{ cluster_id := 2, alpha := 1, beta := 1, article_count := 0,
           label := [], updated_at := [] }]
        [] (str ("x")) (str ("click"))).2 =
      [{ id := 1, article_id := str ("x"), action := str ("click"),
         cluster_id := some 2, created_at := str ("t") }] ∧
    ArmUpdateOK
      [{ cluster_id := 2, alpha := 1, beta := 1, article_count := 0,
         label := [], updated_at := [] }]
      (record_action (str ("t"))
        [{ (default : StoredArticle) with id := str ("x"), cluster_id := 2 }]
        [{ cluster_id := 2, alpha := 1, beta := 1, article_count := 0,
           label := [], updated_at := [] }]
        [] (str ("x")) (str ("click"))).1
      2 true :=
  ⟨rfl, by decide, Or.inl rfl,
   ((C4_record_action (str ("t"))
      [{ (default : StoredArticle) with id := str ("x"), cluster_id := 2 }]
      [{ cluster_id := 2, alpha := 1, beta := 1, article_count := 0,
         label := [], updated_at := [] }]
      [] (str ("x")) (str ("click"))).2.2
      { (default : StoredArticle) with id := str ("x"), cluster_id := 2 }
      rfl (by decide)).1,
   ((C4_record_action (str ("t"))
      [{ (default : StoredArticle) with id := str ("x"), cluster_id := 2 }]
      [{ cluster_id := 2, alpha := 1, beta := 1, article_count := 0,
         label := [], updated_at := [] }]
      [] (str ("x")) (str ("click"))).2.2
      { (default : StoredArticle) with id := str ("x"), cluster_id := 2 }
      rfl (by decide)).2.1 (Or.inl rfl)⟩

/-- C10: every record newly written by `embed_and_store` carries
`cluster_id = -1`; a noise record is invisible to `get_cluster_articles` and
`get_boundary_articles` for every non-negative cluster id, and a
`record_action` on it changes neither the arms nor the action log. -/
theorem C10_fresh_ingest_is_noise (embed : Str → List ℚ) (now : Str)
    (store : List StoredArticle) (articles : List ProcessedArticle) :
    (∀ r ∈ (embed_and_store embed now store articles).2,
      r ∈ store ∨ r.cluster_id = -1) ∧
    (∀ (s : List StoredArticle) (r : StoredArticle), r.cluster_id = -1 →
      (∀ cid : Int, 0 ≤ cid → ∀ (n : Nat) (nf : Bool),
        r ∉ get_cluster_articles s cid n nf ∧
        (∀ d : ℚ, (r, d) ∉ get_boundary_articles s cid n)) ∧
      (∀ (arms : List ClusterArm) (log : List ActionLog) (aid action : Str),
        get_article s aid = some r →
        record_action now s arms log aid action = (arms, log))) := by
  constructor
  · intro r hr
    by_cases h1 : articles.isEmpty
    · left; simpa [embed_and_store, h1] using hr
    · simp only [embed_and_store, h1, Bool.false_eq_true, if_false] at hr
      by_cases h2 : (articles.filter
          (fun a => !(store.any (fun rr => rr.id == a.external_id)))).isEmpty
      · left; simpa [h2] using hr
      · simp only [h2, Bool.false_eq_true, if_false] at hr
        rcases List.mem_append.mp hr with hmem | hmem
        · left; exact hmem
        · right
          rcases List.mem_map.mp hmem with ⟨a, _, rfl⟩
          rfl
  · intro s r hr
    constructor
    · intro cid hcid n nf
      constructor
      · intro hmem
        have hc := (mem_get_cluster_articles hmem).2
        omega
      · intro d hmem
        have hc := (mem_get_boundary_articles hmem).2
        simp only at hc
        omega
    · intro arms log aid action hsome
      have hbeq : (r.cluster_id == -1) = true := beq_iff_eq.mpr hr
      simp [record_action, hsome, hbeq]

/-- Witness for C10: a freshly ingested article, queried and acted on. -/
theorem C10_fresh_ingest_is_noise_witness :
    (∀ r ∈ (embed_and_store (fun _ => []) (str ("t")) []
        [⟨str ("n1"), [], [], [], [], [], false, [], [], []⟩]).2,
      r ∈ ([] : List StoredArticle) ∨ r.cluster_id = -1) ∧
    ((to_stored (fun _ => []) (str ("t"))
        ⟨str ("n1"), [], [], [], [], [], false, [], [], []⟩).cluster_id = -1) ∧
    ((0 : Int) ≤ 0) ∧
    (to_stored (fun _ => []) (str ("t"))
        ⟨str ("n1"), [], [], [], [], [], false, [], [], []⟩ ∉
      get_cluster_articles
        [to_stored (fun _ => []) (str ("t"))
          ⟨str ("n1"), [], [], [], [], [], false, [], [], []⟩] 0 5 true) ∧
    (get_article
        [to_stored (fun _ => []) (str ("t"))
          ⟨str ("n1"), [], [], [], [], [], false, [], [], []⟩] (str ("n1")) =
      some (to_stored (fun _ => []) (str ("t"))
        ⟨str ("n1"), [], [], [], [], [], false, [], [], []⟩)) ∧
    record_action (str ("t"))
        [to_stored (fun _ => []) (str ("t"))
          ⟨str ("n1"), [], [], [], [], [], false, [], [], []⟩]
        [] [] (str ("n1")) (str ("click")) = ([], []) :=
  ⟨(C10_fresh_ingest_is_noise (fun _ => []) (str ("t")) []
      [⟨str ("n1"), [], [], [], [], [], false, [], [], []⟩]).1,
   rfl, by decide,
   (((C10_fresh_ingest_is_noise (fun _ => []) (str ("t")) []
        [⟨str ("n1"), [], [], [], [], [], false, [], [], []⟩]).2
      [to_stored (fun _ => []) (str ("t"))
        ⟨str ("n1"), [], [], [], [], [], false, [], [], []⟩]
      (to_stored (fun _ => []) (str ("t"))
        ⟨str ("n1"), [], [], [], [], [], false, [], [], []⟩)
      rfl).1 0 (by decide) 5 true).1,
   rfl,
   ((C10_fresh_ingest_is_noise (fun _ => []) (str ("t")) []
        [⟨str ("n1"), [], [], [], [], [], false, [], [], []⟩]).2
      [to_stored (fun _ => []) (str ("t"))
        ⟨str ("n1"), [], [], [], [], [], false, [], [], []⟩]
      (to_stored (fun _ => []) (str ("t"))
        ⟨str ("n1"), [], [], [], [], [], false, [], [], []⟩)
      rfl).2 [] [] (str ("n1")) (str ("click")) rfl⟩

/-! ## Lemmas about the co-occurrence analyzer -/

theorem mem_unionList (s l : List Str) (x : Str) :
    x ∈ unionList s l ↔ x ∈ s ∨ x ∈ l := by
  induction l generalizing s with
  | nil => simp [unionList]
  | cons a t ih =>
    show x ∈ unionList (if s.any (· == a) then s else s ++ [a]) t ↔ _
    rw [ih]
    by_cases h : s.any (· == a) = true
    · simp only [h, if_true, List.mem_cons]
      constructor
      · rintro (hx | hx)
        · exact Or.inl hx
        · exact Or.inr (Or.inr hx)
      · rintro (hx | hx | hx)
        · exact Or.inl hx
        · exact Or.inl (hx ▸ mem_of_any_beq h)
        · exact Or.inr hx
    · simp only [h, Bool.false_eq_true, if_false, List.mem_append,
        List.mem_singleton, List.mem_cons]
      tauto

theorem foldl_preserve {α β : Type} (P : β → Prop) (f : β → α → β) (l : List α)
    (b : β) (hb : P b) (hf : ∀ b' a, a ∈ l → P b' → P (f b' a)) :
    P (l.foldl f b) := by
  induction l generalizing b with
  | nil => exact hb
  | cons x t ih =>
    exact ih (f b x) (hf b x (List.mem_cons_self x t) hb)
      (fun b' a ha hb' => hf b' a (List.mem_cons_of_mem x ha) hb')

theorem updateEntry_prop (stack : List Str) (acc : List (Str × CoEntry))
    (tag : Str) (hits : List Str) (aid : Str)
    (hacc : ∀ e ∈ acc,
      stack.any (fun s => s == e.1) = false ∧ e.2.article_ids.length ≤ 3)
    (htag : stack.any (fun s => s == tag) = false) :
    ∀ e ∈ updateEntry acc tag hits aid,
      stack.any (fun s => s == e.1) = false ∧ e.2.article_ids.length ≤ 3 := by
  induction acc with
  | nil =>
    intro e he
    simp only [updateEntry, List.mem_singleton] at he
    subst he
    exact ⟨htag, by simp⟩
  | cons hd tl ih =>
    obtain ⟨k, en⟩ := hd
    intro e he
    by_cases hk : (k == tag) = true
    · simp only [updateEntry, hk, if_true] at he
      rcases List.mem_cons.mp he with rfl | hmem
      · refine ⟨(hacc (k, en) (List.mem_cons_self _ _)).1, ?_⟩
        by_cases hlt : en.article_ids.length < 3
        · simp only [hlt, if_true]
          have := (hacc (k, en) (List.mem_cons_self _ _)).2
          simp only [List.length_append, List.length_singleton]
          omega
        · simp only [hlt, if_false]
          exact (hacc (k, en) (List.mem_cons_self _ _)).2
      · exact hacc _ (List.mem_cons_of_mem _ hmem)
    · simp only [updateEntry, hk, Bool.false_eq_true, if_false] at he
      rcases List.mem_cons.mp he with rfl | hmem
      · exact hacc _ (List.mem_cons_self _ _)
      · exact ih (fun e' he' => hacc e' (List.mem_cons_of_mem _ he')) e hmem

/-- C9 counterexample: the claim says a tag is normalized by keeping the part
before a `:`; the code keeps the part after the last `:` —
`"Category:AWS"` normalizes to `"aws"`, not `"category"`. -/
theorem C9_counterexample :
    normalize_tag (str ("Category:AWS")) = str ("aws") ∧
    normalize_tag (str ("Category:AWS")) ≠ str ("category") := by
  constructor
  · rfl
  · decide

/-- C9 amended: tags are normalized by lowercasing, stripping and keeping the
segment after the last `:` (then before the first `,`); `analyze` returns
only technologies outside the lowercased stack with co-occurrence count at
least 2, at most `max_results` of them, sorted by count descending, each
carrying at most 3 sample article ids. -/
theorem C9_analyze_properties (tech_stack : List Str) (max_results : Nat)
    (articles : List Article) :
    (cooccurrence_analyze tech_stack max_results articles).length ≤ max_results ∧
    (cooccurrence_analyze tech_stack max_results articles).Pairwise
      (fun x y => y.count ≤ x.count) ∧
    ∀ t ∈ cooccurrence_analyze tech_stack max_results articles,
      2 ≤ t.count ∧
      (tech_stack.map strLower).any (fun s => s == t.name) = false ∧
      t.sample_article_ids.length ≤ 3 := by
  unfold cooccurrence_analyze
  by_cases hempty : (dedupFirst (tech_stack.map strLower)).isEmpty = true ∨
      articles.isEmpty = true
  · rw [if_pos hempty]
    refine ⟨by simp, by simp, by simp⟩
  · rw [if_neg hempty]
    set stack := dedupFirst (tech_stack.map strLower) with hstack
    set outside_tags := articles.foldl
      (fun acc article =>
        if article.tags.isEmpty then acc
        else
          let normalized_tags :=
            dedupFirst ((article.tags.map normalize_tag).filter (fun t => !t.isEmpty))
          let stack_hits := normalized_tags.filter (fun t => stack.any (· == t))
          if stack_hits.isEmpty then acc
          else
            let outside := normalized_tags.filter (fun t => !(stack.any (· == t)))
            outside.foldl (fun acc2 tag => updateEntry acc2 tag stack_hits article.id) acc)
      [] with hout
    have hinv : ∀ e ∈ outside_tags,
        stack.any (fun s => s == e.1) = false ∧ e.2.article_ids.length ≤ 3 := by
      rw [hout]
      refine foldl_preserve
        (fun (acc : List (Str × CoEntry)) => ∀ e ∈ acc,
          stack.any (fun s => s == e.1) = false ∧ e.2.article_ids.length ≤ 3)
        _ articles [] (by simp) ?_
      intro acc article _ hacc e he
      by_cases h1 : article.tags.isEmpty = true
      · rw [if_pos h1] at he; exact hacc e he
      · rw [if_neg h1] at he
        simp only [] at he
        by_cases h2 : ((dedupFirst ((article.tags.map normalize_tag).filter
            (fun t => !t.isEmpty))).filter (fun t => stack.any (· == t))).isEmpty = true
        · rw [if_pos h2] at he; exact hacc e he
        · rw [if_neg h2] at he
          refine foldl_preserve
            (fun (acc2 : List (Str × CoEntry)) => ∀ e ∈ acc2,
              stack.any (fun s => s == e.1) = false ∧ e.2.article_ids.length ≤ 3)
            _ _ acc hacc ?_ e he
          intro acc2 tag htag hacc2
          refine updateEntry_prop stack acc2 tag _ article.id hacc2 ?_
          have := (List.mem_filter.mp htag).2
          simpa using this
    set sorted_tags := stableSortBy (fun x y => decide (y.2.count ≤ x.2.count))
      outside_tags with hsorted
    have hsub : List.Sublist ((sorted_tags.take max_results).filter
        (fun x => decide (2 ≤ x.2.count))) sorted_tags :=
      (List.filter_sublist _).trans (List.take_sublist _ _)
    refine ⟨?_, ?_, ?_⟩
    · rw [List.length_map]
      exact le_trans (List.length_filter_le _ _) (List.length_take_le _ _)
    · refine List.pairwise_map.mpr ?_
      refine List.Pairwise.sublist hsub ?_
      have hp := stableSortBy_pairwise (fun x y => decide (y.2.count ≤ x.2.count))
        (fun x y => by
          rcases Nat.le_total y.2.count x.2.count with h | h
          · left; exact decide_eq_true h
          · right; exact decide_eq_true h)
        (fun x y z hxy hyz =>
          decide_eq_true (le_trans (of_decide_eq_true hyz) (of_decide_eq_true hxy)))
        outside_tags
      exact hp.imp (fun h => of_decide_eq_true h)
    · intro t ht
      rcases List.mem_map.mp ht with ⟨x, hx, rfl⟩
      have hcount := (List.mem_filter.mp hx).2
      have hxin : x ∈ outside_tags := mem_stableSortBy.mp (hsub.mem hx)
      have hex := hinv x hxin
      refine ⟨of_decide_eq_true hcount, ?_, hex.2⟩
      have hstackany := hex.1
      have hany : (tech_stack.map strLower).any (fun s => s == x.1) = false := by
        by_contra hc
        have hc' : (tech_stack.map strLower).any (fun s => s == x.1) = true := by
          revert hc; cases (tech_stack.map strLower).any (fun s => s == x.1) <;> simp
        have hmem1 : x.1 ∈ tech_stack.map strLower := mem_of_any_beq hc'
        have hmem2 : x.1 ∈ stack := by
          rw [hstack]
          unfold dedupFirst
          exact (mem_unionList _ _ _).mpr (Or.inr hmem1)
        have := any_beq_of_mem hmem2
        rw [hstackany] at this
        exact Bool.false_ne_true this
      exact hany

/-- Witness for C9: a stack `{aws}` against two articles tagged `AWS, Lambda`
surfaces `lambda` with count 2. -/
theorem C9_analyze_properties_witness :
    (⟨str ("lambda"), 2, [str ("aws")], [str ("1"), str ("2")]⟩ :
        TrendingTechnology) ∈
      cooccurrence_analyze [str ("aws")] 10
        [⟨str ("1"), [str ("AWS"), str ("Lambda")]⟩,
         ⟨str ("2"), [str ("AWS"), str ("Lambda")]⟩] ∧
    (2 ≤ (⟨str ("lambda"), 2, [str ("aws")], [str ("1"), str ("2")]⟩ :
        TrendingTechnology).count ∧
     (([str ("aws")].map strLower).any (fun s =>
        s == (⟨str ("lambda"), 2, [str ("aws")], [str ("1"), str ("2")]⟩ :
          TrendingTechnology).name)) = false ∧
     (⟨str ("lambda"), 2, [str ("aws")], [str ("1"), str ("2")]⟩ :
        TrendingTechnology).sample_article_ids.length ≤ 3) := by
  have hres : cooccurrence_analyze [str ("aws")] 10
      [⟨str ("1"), [str ("AWS"), str ("Lambda")]⟩,
       ⟨str ("2"), [str ("AWS"), str ("Lambda")]⟩] =
      [⟨str ("lambda"), 2, [str ("aws")], [str ("1"), str ("2")]⟩] := rfl
  have hmem : (⟨str ("lambda"), 2, [str ("aws")], [str ("1"), str ("2")]⟩ :
      TrendingTechnology) ∈
      cooccurrence_analyze [str ("aws")] 10
        [⟨str ("1"), [str ("AWS"), str ("Lambda")]⟩,
         ⟨str ("2"), [str ("AWS"), str ("Lambda")]⟩] := by
    rw [hres]; exact List.mem_singleton.mpr rfl
  exact ⟨hmem,
    (C9_analyze_properties [str ("aws")] 10
      [⟨str ("1"), [str ("AWS"), str ("Lambda")]⟩,
       ⟨str ("2"), [str ("AWS"), str ("Lambda")]⟩]).2.2 _ hmem⟩

/-! ## Lemmas about the summarizer wrapper -/

theorem try_parse_candidates_none (json_loads : Str → Option PyVal)
    (l : List Str) (h : ∀ c ∈ l, json_loads c = none) :
    try_parse_candidates json_loads l = none := by
  induction l with
  | nil => rfl
  | cons c rest ih =>
    unfold try_parse_candidates
    rw [h c (List.mem_cons_self c rest)]
    exact ih (fun c' hc' => h c' (List.mem_cons_of_mem c hc'))

/-- C7 amended: `_extract_json` tries, in order, a raw parse, a ```json
fenced block, a plain ``` fenced block, and the balanced-brace candidates;
when every parse fails, `_extract_json` raises — but `analyze` catches the
error and returns the fallback minimal result (input title, truncated
response as content, `[vendor.lower()]` as tags) instead of raising a
`ParseFailure`. -/
theorem C7_parse_failure_fallback (json_loads : Str → Option PyVal)
    (title content vendor response : Str)
    (h0 : json_loads (strStrip response) = none)
    (h1 : ∀ c, extract_code_block (str ("```json")) (strStrip response) = some c →
      json_loads c = none)
    (h2 : ∀ c, extract_code_block (str ("```")) (strStrip response) = some c →
      json_loads c = none)
    (h3 : ∀ c ∈ brace_candidates (strStrip response), json_loads c = none) :
    extract_json json_loads response = none ∧
    analyze_response title content vendor json_loads response =
      { summary := { title := title,
                     content := if response.isEmpty then content.take 200
                                else response.take 500,
                     diff_description := none, explanation := none },
        tags := { tags := [strLower vendor], vendor_services := [] } } := by
  have hext : extract_json json_loads response = none := by
    unfold extract_json
    simp only []
    rw [h0]
    cases hcb : extract_code_block (str ("```json")) (strStrip response) with
    | some c =>
      simp only []
      rw [h1 c hcb]
      cases hcb2 : extract_code_block (str ("```")) (strStrip response) with
      | some c2 =>
        simp only []
        rw [h2 c2 hcb2]
        exact try_parse_candidates_none json_loads _ h3
      | none => exact try_parse_candidates_none json_loads _ h3
    | none =>
      cases hcb2 : extract_code_block (str ("```")) (strStrip response) with
      | some c2 =>
        simp only []
        rw [h2 c2 hcb2]
        exact try_parse_candidates_none json_loads _ h3
      | none => exact try_parse_candidates_none json_loads _ h3
  refine ⟨hext, ?_⟩
  unfold analyze_response
  rw [hext]

/-- C7 counterexample: a prose-only tool output fails all three parses, yet
`analyze` returns a (fallback) result — it does not raise. -/
theorem C7_counterexample :
    extract_json json_loads_lite
        (str ("The model replied with plain prose.")) = none ∧
    analyze_response (str ("t")) (str ("c")) (str ("AWS")) json_loads_lite
        (str ("The model replied with plain prose.")) =
      { summary := { title := str ("t"),
                     content := (str ("The model replied with plain prose.")).take 500,
                     diff_description := none, explanation := none },
        tags := { tags := [str ("aws")], vendor_services := [] } } :=
  ⟨rfl, rfl⟩

/-- Witness for C7 at `json_loads_lite` and a concrete prose response. -/
theorem C7_parse_failure_fallback_witness :
    json_loads_lite (strStrip (str ("no structured output here"))) = none ∧
    (∀ c, extract_code_block (str ("```json"))
        (strStrip (str ("no structured output here"))) = some c →
      json_loads_lite c = none) ∧
    (∀ c, extract_code_block (str ("```"))
        (strStrip (str ("no structured output here"))) = some c →
      json_loads_lite c = none) ∧
    (∀ c ∈ brace_candidates (strStrip (str ("no structured output here"))),
      json_loads_lite c = none) ∧
    (extract_json json_loads_lite (str ("no structured output here")) = none ∧
     analyze_response (str ("t")) (str ("c")) (str ("GCP")) json_loads_lite
        (str ("no structured output here")) =
      { summary := { title := str ("t"),
                     content := if (str ("no structured output here")).isEmpty
                                then (str ("c")).take 200
                                else (str ("no structured output here")).take 500,
                     diff_description := none, explanation := none },
        tags := { tags := [strLower (str ("GCP"))], vendor_services := [] } }) := by
  have h1 : ∀ c, extract_code_block (str ("```json"))
      (strStrip (str ("no structured output here"))) = some c →
      json_loads_lite c = none := by
    intro c h
    rw [show extract_code_block (str ("```json"))
      (strStrip (str ("no structured output here"))) = none from rfl] at h
    exact Option.noConfusion h
  have h2 : ∀ c, extract_code_block (str ("```"))
      (strStrip (str ("no structured output here"))) = some c →
      json_loads_lite c = none := by
    intro c h
    rw [show extract_code_block (str ("```"))
      (strStrip (str ("no structured output here"))) = none from rfl] at h
    exact Option.noConfusion h
  have h3 : ∀ c ∈ brace_candidates (strStrip (str ("no structured output here"))),
      json_loads_lite c = none := by
    intro c h
    rw [show brace_candidates (strStrip (str ("no structured output here"))) = []
      from rfl] at h
    exact absurd h (List.not_mem_nil c)
  exact ⟨rfl, h1, h2, h3,
    C7_parse_failure_fallback json_loads_lite (str ("t")) (str ("c")) (str ("GCP"))
      (str ("no structured output here")) rfl h1 h2 h3⟩

/-- C8 amended: the releases plugin swallows per-repository failures — an
exception or an error status for one repository contributes no items and no
error, so `fetch_updates` over a repository list containing a failing
repository returns exactly what it returns without that repository, and it
returns successfully (`Except.ok`) rather than raising. -/
theorem C8_silent_partial_failure (client : Str → RepoResponse)
    (since : Option Int) (l l' : List Str) (r : Str)
    (hfail : client r = RepoResponse.exn ∨
      ∃ s rels, client r = RepoResponse.ok s rels ∧ 400 ≤ s) :
    fetch_repo_releases client since r = [] ∧
    fetch_updates client (l ++ r :: l') since =
      fetch_updates client (l ++ l') since ∧
    ∃ arts, fetch_updates client (l ++ r :: l') since = Except.ok arts := by
  have hrepo : fetch_repo_releases client since r = [] := by
    rcases hfail with h | ⟨s, rels, h, hs⟩
    · simp [fetch_repo_releases, h]
    · by_cases h404 : (s == 404) = true
      · simp [fetch_repo_releases, h, h404]
      · simp [fetch_repo_releases, h, h404, hs]
  have hfold : (l ++ r :: l').foldl
      (fun acc repo => acc ++ fetch_repo_releases client since repo) [] =
      (l ++ l').foldl
        (fun acc repo => acc ++ fetch_repo_releases client since repo) [] := by
    rw [List.foldl_append, List.foldl_append, List.foldl_cons, hrepo,
      List.append_nil]
  refine ⟨hrepo, ?_, ?_⟩
  · unfold fetch_updates
    rw [hfold]
  · exact ⟨_, rfl⟩

/-- C8 counterexample: repository `a/r1` answers HTTP 500 with a body that
would yield one release, `a/r2` answers 200; the run returns `Except.ok` with
only `a/r2`'s article — a list missing `a/r1`'s items, with no failure
raised. -/
theorem C8_counterexample :
    fetch_repo_releases
      (fun repo =>
        if repo == str ("a/r1") then
          RepoResponse.ok 500 [⟨none, some (str ("v1")), none, none,
            false, false, none, some 100⟩]
        else if repo == str ("a/r2") then
          RepoResponse.ok 200 [⟨none, some (str ("v2")), none, none,
            false, false, none, some 200⟩]
        else RepoResponse.exn)
      none (str ("a/r1")) = [] ∧
    fetch_repo_releases
      (fun repo =>
        if repo == str ("a/r1") then
          RepoResponse.ok 200 [⟨none, some (str ("v1")), none, none,
            false, false, none, some 100⟩]
        else RepoResponse.exn)
      none (str ("a/r1")) =
      [release_to_article (str ("a/r1"))
        ⟨none, some (str ("v1")), none, none, false, false, none, some 100⟩] ∧
    fetch_updates
      (fun repo =>
        if repo == str ("a/r1") then
          RepoResponse.ok 500 [⟨none, some (str ("v1")), none, none,
            false, false, none, some 100⟩]
        else if repo == str ("a/r2") then
          RepoResponse.ok 200 [⟨none, some (str ("v2")), none, none,
            false, false, none, some 200⟩]
        else RepoResponse.exn)
      [str ("a/r1"), str ("a/r2")] none =
      Except.ok [release_to_article (str ("a/r2"))
        ⟨none, some (str ("v2")), none, none, false, false, none, some 200⟩] :=
  ⟨rfl, rfl, rfl⟩

/-- Witness for C8 at a client whose only repository raises. -/
theorem C8_silent_partial_failure_witness :
    ((fun _ : Str => RepoResponse.exn) (str ("o/r1")) = RepoResponse.exn ∨
      ∃ s rels, (fun _ : Str => RepoResponse.exn) (str ("o/r1")) =
        RepoResponse.ok s rels ∧ 400 ≤ s) ∧
    (fetch_repo_releases (fun _ => RepoResponse.exn) none (str ("o/r1")) = [] ∧
     fetch_updates (fun _ => RepoResponse.exn) ([] ++ str ("o/r1") :: []) none =
       fetch_updates (fun _ => RepoResponse.exn) ([] ++ []) none ∧
     ∃ arts, fetch_updates (fun _ => RepoResponse.exn)
       ([] ++ str ("o/r1") :: []) none = Except.ok arts) :=
  ⟨Or.inl rfl,
   C8_silent_partial_failure (fun _ => RepoResponse.exn) none [] [] (str ("o/r1"))
     (Or.inl rfl)⟩

/-! ## Lemmas about the feed selector -/

theorem filter_articles_sublist (articles : List StoredArticle)
    (vf : Option Str) (po : Bool) :
    List.Sublist (filter_articles articles vf po) articles := by
  unfold filter_articles
  have h1 : List.Sublist
      (match vf with
       | none => articles
       | some v => if v.isEmpty then articles
                   else articles.filter (fun a => strLower a.vendor == strLower v))
      articles := by
    cases vf with
    | none => exact List.Sublist.refl _
    | some v =>
      simp only []
      by_cases hv : v.isEmpty = true
      · rw [if_pos hv]
      · rw [if_neg hv]; exact List.filter_sublist _
  by_cases hpo : po = true
  · rw [if_pos hpo]
    exact (List.filter_sublist _).trans h1
  · rw [if_neg hpo]
    exact h1

theorem mem_filter_articles {articles : List StoredArticle} {vf : Option Str}
    {po : Bool} {r : StoredArticle} (h : r ∈ filter_articles articles vf po) :
    r ∈ articles := (filter_articles_sublist articles vf po).mem h

theorem vendor_of_mem_filter_articles {articles : List StoredArticle}
    {v : Str} {po : Bool} {r : StoredArticle}
    (h : r ∈ filter_articles articles (some v) po) (hv : v.isEmpty = false) :
    strLower r.vendor = strLower v := by
  unfold filter_articles at h
  simp only [] at h
  rw [hv] at h
  simp only [Bool.false_eq_true, if_false] at h
  have h2 : r ∈ articles.filter (fun a => strLower a.vendor == strLower v) := by
    by_cases hpo : po = true
    · rw [if_pos hpo] at h
      exact (List.filter_sublist _).mem h
    · rwa [if_neg hpo] at h
  exact beq_iff_eq.mp (List.mem_filter.mp h2).2

theorem id_article_to_feed_item (a : StoredArticle) :
    (article_to_feed_item a).id = a.id := rfl

theorem vendor_article_to_feed_item (a : StoredArticle) :
    (article_to_feed_item a).vendor = a.vendor := rfl

theorem vendorOK_nil (vf : Option Str) : VendorOK vf [] :=
  fun _ _ _ it hit => absurd hit (List.not_mem_nil it)

theorem vendorOK_of_forall_mem {vf : Option Str} {l l' : List FeedItem}
    (hsub : ∀ it ∈ l', it ∈ l) (h : VendorOK vf l) : VendorOK vf l' :=
  fun v hv hve it hit => h v hv hve it (hsub it hit)

theorem vendorOK_append {vf : Option Str} {l1 l2 : List FeedItem}
    (h1 : VendorOK vf l1) (h2 : VendorOK vf l2) : VendorOK vf (l1 ++ l2) := by
  intro v hv hve it hit
  rcases List.mem_append.mp hit with h | h
  · exact h1 v hv hve it h
  · exact h2 v hv hve it h

theorem vendorOK_map {vf : Option Str} {l : List StoredArticle}
    (h : ∀ a ∈ l, ∀ v, vf = some v → v.isEmpty = false →
      strLower a.vendor = strLower v) :
    VendorOK vf (l.map article_to_feed_item) := by
  intro v hv hve it hit
  rcases List.mem_map.mp hit with ⟨a, ha, rfl⟩
  rw [vendor_article_to_feed_item]
  exact h a ha v hv hve

theorem get_latest_articles_spec (store : List StoredArticle) (limit : Nat)
    (vf : Option Str) (po : Bool) (offset : Nat)
    (hstore : (store.map (·.id)).Nodup) :
    (get_latest_articles store limit vf po offset).length ≤ limit ∧
    ((get_latest_articles store limit vf po offset).map (·.id)).Nodup ∧
    VendorOK vf (get_latest_articles store limit vf po offset) := by
  unfold get_latest_articles
  by_cases hs : store.isEmpty = true
  · rw [if_pos hs]
    exact ⟨by simp, by simp, vendorOK_nil vf⟩
  · rw [if_neg hs]
    have hslice : List.Sublist
        ((filter_articles (stableSortBy pubDesc store) vf po).drop offset |>.take limit)
        (filter_articles (stableSortBy pubDesc store) vf po) :=
      (List.take_sublist _ _).trans (List.drop_sublist _ _)
    refine ⟨?_, ?_, ?_⟩
    · rw [List.length_map]
      exact List.length_take_le _ _
    · have hids : ((filter_articles (stableSortBy pubDesc store) vf po).map (·.id)).Nodup := by
        have hsorted : ((stableSortBy pubDesc store).map (·.id)).Nodup :=
          hstore.perm ((stableSortBy_perm pubDesc store).map _).symm
        exact hsorted.sublist ((filter_articles_sublist _ _ _).map _)
      have : (((filter_articles (stableSortBy pubDesc store) vf po).drop offset
          |>.take limit).map (·.id)).Nodup := hids.sublist (hslice.map _)
      have hmapeq : ∀ (l : List StoredArticle),
          (l.map article_to_feed_item).map (fun it => it.id) = l.map (·.id) := by
        intro l
        rw [List.map_map]
        rfl
      rw [hmapeq]
      exact this
    · refine vendorOK_map ?_
      intro a ha v hv hve
      subst hv
      exact vendor_of_mem_filter_articles (hslice.mem ha) hve

theorem nodup_sampled_clusters (arms : List ClusterArm) (samples : Int → ℚ)
    (h : (arms.map (·.cluster_id)).Nodup) :
    ((sampled_clusters arms samples).map Prod.fst).Nodup := by
  have hperm1 : List.Perm (sampled_clusters arms samples)
      ((get_all_cluster_arms arms).map (fun a => (a.cluster_id, samples a.cluster_id))) :=
    stableSortBy_perm _ _
  have hperm2 : List.Perm (get_all_cluster_arms arms) arms := stableSortBy_perm _ _
  have hmm : ((get_all_cluster_arms arms).map
      (fun a => (a.cluster_id, samples a.cluster_id))).map Prod.fst =
      (get_all_cluster_arms arms).map (·.cluster_id) := by
    rw [List.map_map]; rfl
  have h2 : ((get_all_cluster_arms arms).map (·.cluster_id)).Nodup :=
    h.perm (hperm2.map _).symm
  rw [← hmm] at h2
  exact h2.perm (hperm1.map _).symm

theorem feed_main_loop_spec (store : List StoredArticle) (vf : Option Str)
    (po : Bool) (offset : Nat) (per : Int)
    (hstore : (store.map (·.id)).Nodup) :
    ∀ (sc : List (Int × ℚ)) (remaining : Int) (acc : List FeedItem),
    (sc.map Prod.fst).Nodup →
    (acc.map (·.id)).Nodup →
    VendorOK vf acc →
    (∀ it ∈ acc, ∀ rec ∈ store, rec.id = it.id →
      rec.cluster_id ∉ sc.map Prod.fst) →
    ((feed_main_loop store vf po offset per sc remaining acc).map (·.id)).Nodup ∧
    VendorOK vf (feed_main_loop store vf po offset per sc remaining acc) := by
  intro sc
  induction sc with
  | nil =>
    intro remaining acc _ haccN hven _
    exact ⟨haccN, hven⟩
  | cons head rest ih =>
    obtain ⟨cid, q⟩ := head
    intro remaining acc hscN haccN hven hcross
    by_cases hrem : remaining ≤ 0
    · have hstep : feed_main_loop store vf po offset per ((cid, q) :: rest)
          remaining acc = acc := by
        conv_lhs => unfold feed_main_loop
        rw [if_pos hrem]
      rw [hstep]
      exact ⟨haccN, hven⟩
    · set slice := ((filter_articles
        (get_cluster_articles store cid (min per remaining + offset).toNat true)
        vf po).drop offset).take (min per remaining).toNat with hsl
      have hstep : feed_main_loop store vf po offset per ((cid, q) :: rest)
          remaining acc =
          feed_main_loop store vf po offset per rest
            (remaining - slice.length) (acc ++ slice.map article_to_feed_item) := by
        conv_lhs => unfold feed_main_loop
        rw [if_neg hrem]
      rw [hstep]
      have hsliceSub : List.Sublist slice
          (filter_articles
            (get_cluster_articles store cid (min per remaining + offset).toNat true)
            vf po) :=
        (List.take_sublist _ _).trans (List.drop_sublist _ _)
      have hsliceStore : ∀ s ∈ slice, s ∈ store ∧ s.cluster_id = cid := by
        intro s hs
        exact mem_get_cluster_articles (mem_filter_articles (hsliceSub.mem hs))
      have hsliceIds : (slice.map (·.id)).Nodup := by
        have h1 := @nodup_ids_get_cluster_articles store cid
          (min per remaining + offset).toNat true hstore
        exact h1.sublist ((hsliceSub.trans (filter_articles_sublist _ _ _)).map _)
      have haccN' : ((acc ++ slice.map article_to_feed_item).map (·.id)).Nodup := by
        rw [List.map_append]
        rw [List.nodup_append]
        refine ⟨haccN, ?_, ?_⟩
        · have : (slice.map article_to_feed_item).map (fun it => it.id) =
              slice.map (·.id) := by
            rw [List.map_map]; rfl
          rw [this]
          exact hsliceIds
        · intro x hx1 hx2
          rcases List.mem_map.mp hx1 with ⟨it, hit, rfl⟩
          rcases List.mem_map.mp hx2 with ⟨it2, hit2, hid2⟩
          rcases List.mem_map.mp hit2 with ⟨s, hs, rfl⟩
          rcases hsliceStore s hs with ⟨hsstore, hscid⟩
          have hids : s.id = it.id := hid2
          have := hcross it hit s hsstore hids
          rw [List.map_cons] at this
          exact this (hscid ▸ List.mem_cons_self cid (rest.map Prod.fst))
      have hven' : VendorOK vf (acc ++ slice.map article_to_feed_item) := by
        refine vendorOK_append hven (vendorOK_map ?_)
        intro a ha v hv hve
        subst hv
        exact vendor_of_mem_filter_articles (hsliceSub.mem ha) hve
      have hcross' : ∀ it ∈ acc ++ slice.map article_to_feed_item,
          ∀ rec ∈ store, rec.id = it.id → rec.cluster_id ∉ rest.map Prod.fst := by
        intro it hit rec hrec hid
        rcases List.mem_append.mp hit with hmem | hmem
        · have := hcross it hmem rec hrec hid
          rw [List.map_cons] at this
          exact fun hc => this (List.mem_cons_of_mem _ hc)
        · rcases List.mem_map.mp hmem with ⟨s, hs, rfl⟩
          rcases hsliceStore s hs with ⟨hsstore, hscid⟩
          have hrs : rec = s := by
            refine List.inj_on_of_nodup_map hstore hrec hsstore ?_
            exact hid
          rw [hrs, hscid]
          rw [List.map_cons] at hscN
          exact (List.nodup_cons.mp hscN).1
      exact ih (remaining - slice.length) (acc ++ slice.map article_to_feed_item)
        (by rw [List.map_cons] at hscN; exact (List.nodup_cons.mp hscN).2)
        haccN' hven' hcross'

theorem serendipity_inner_spec (vf : Option Str) :
    ∀ (filtered : List StoredArticle) (slots : Int) (seen : List Str)
      (acc : List FeedItem),
    seen = acc.map (·.id) →
    (acc.map (·.id)).Nodup →
    VendorOK vf acc →
    (∀ a ∈ filtered, ∀ v, vf = some v → v.isEmpty = false →
      strLower a.vendor = strLower v) →
    (serendipity_inner filtered slots seen acc).2.1 =
      ((serendipity_inner filtered slots seen acc).1).map (·.id) ∧
    (((serendipity_inner filtered slots seen acc).1).map (·.id)).Nodup ∧
    VendorOK vf (serendipity_inner filtered slots seen acc).1 := by
  intro filtered
  induction filtered with
  | nil =>
    intro slots seen acc hseen hN hV _
    exact ⟨hseen, hN, hV⟩
  | cons a rest ih =>
    intro slots seen acc hseen hN hV hF
    by_cases hmem : (seen.any (fun s => s == a.id)) = true
    · have hstep : serendipity_inner (a :: rest) slots seen acc =
          serendipity_inner rest slots seen acc := by
        conv_lhs => unfold serendipity_inner
        rw [if_pos hmem]
      rw [hstep]
      exact ih slots seen acc hseen hN hV
        (fun b hb => hF b (List.mem_cons_of_mem a hb))
    · have hnotin : a.id ∉ seen := fun hin => hmem (any_beq_of_mem hin)
      have hseen' : seen ++ [a.id] =
          (acc ++ [article_to_feed_item a]).map (·.id) := by
        rw [List.map_append, ← hseen]
        rfl
      have hN' : ((acc ++ [article_to_feed_item a]).map (·.id)).Nodup := by
        rw [List.map_append]
        rw [List.nodup_append]
        refine ⟨hN, by simp, ?_⟩
        intro x hx1 hx2
        simp only [List.map_cons, List.map_nil, List.mem_singleton] at hx2
        subst hx2
        exact hnotin (hseen ▸ hx1)
      have hV' : VendorOK vf (acc ++ [article_to_feed_item a]) := by
        refine vendorOK_append hV ?_
        intro v hv hve it hit
        simp only [List.mem_singleton] at hit
        subst hit
        rw [vendor_article_to_feed_item]
        exact hF a (List.mem_cons_self a rest) v hv hve
      by_cases hslot : slots - 1 ≤ 0
      · have hstep : serendipity_inner (a :: rest) slots seen acc =
            (acc ++ [article_to_feed_item a], seen ++ [a.id], slots - 1) := by
          conv_lhs => unfold serendipity_inner
          rw [if_neg hmem]
          simp only []
          rw [if_pos hslot]
        rw [hstep]
        exact ⟨hseen', hN', hV'⟩
      · have hstep : serendipity_inner (a :: rest) slots seen acc =
            serendipity_inner rest (slots - 1) (seen ++ [a.id])
              (acc ++ [article_to_feed_item a]) := by
          conv_lhs => unfold serendipity_inner
          rw [if_neg hmem]
          simp only []
          rw [if_neg hslot]
        rw [hstep]
        exact ih (slots - 1) (seen ++ [a.id]) (acc ++ [article_to_feed_item a])
          hseen' hN' hV' (fun b hb => hF b (List.mem_cons_of_mem a hb))

theorem serendipity_loop_spec (store : List StoredArticle) (vf : Option Str)
    (po : Bool) :
    ∀ (lows : List (Int × ℚ)) (slots : Int) (seen : List Str)
      (acc : List FeedItem),
    seen = acc.map (·.id) →
    (acc.map (·.id)).Nodup →
    VendorOK vf acc →
    ((serendipity_loop store vf po lows slots seen acc).map (·.id)).Nodup ∧
    VendorOK vf (serendipity_loop store vf po lows slots seen acc) := by
  intro lows
  induction lows with
  | nil =>
    intro slots seen acc _ hN hV
    exact ⟨hN, hV⟩
  | cons head rest ih =>
    obtain ⟨cid, q⟩ := head
    intro slots seen acc hseen hN hV
    by_cases hslot : slots ≤ 0
    · have hstep : serendipity_loop store vf po ((cid, q) :: rest) slots seen acc
          = acc := by
        conv_lhs => unfold serendipity_loop
        rw [if_pos hslot]
      rw [hstep]
      exact ⟨hN, hV⟩
    · set filtered := filter_articles
        ((get_boundary_articles store cid 3).map Prod.fst) vf po with hfil
      have hstep : serendipity_loop store vf po ((cid, q) :: rest) slots seen acc
          = serendipity_loop store vf po rest
              (serendipity_inner filtered slots seen acc).2.2
              (serendipity_inner filtered slots seen acc).2.1
              (serendipity_inner filtered slots seen acc).1 := by
        conv_lhs => unfold serendipity_loop
        rw [if_neg hslot]
      rw [hstep]
      have hinner := serendipity_inner_spec vf filtered slots seen acc hseen hN hV
        (fun a ha v hv hve => by
          subst hv
          exact vendor_of_mem_filter_articles ha hve)
      exact ih (serendipity_inner filtered slots seen acc).2.2
        (serendipity_inner filtered slots seen acc).2.1
        (serendipity_inner filtered slots seen acc).1
        hinner.1 hinner.2.1 hinner.2.2

/-- C3 amended: every `generate_feed(limit, …)` page with `limit ≥ 1` (over a
store with unique ids and an arm table with unique cluster ids) holds at most
`limit` items, has pairwise-distinct item ids, and — when a non-empty vendor
filter is given — contains only items whose vendor equals the filter
case-insensitively (`.lower()` on both sides). -/
theorem C3_generate_feed_page (serendipity_slots : Int) (samples : Int → ℚ)
    (store : List StoredArticle) (arms : List ClusterArm) (limit : Int)
    (vf : Option Str) (po : Bool) (offset : Nat)
    (hlimit : 1 ≤ limit)
    (hstore : (store.map (·.id)).Nodup)
    (harms : (arms.map (·.cluster_id)).Nodup) :
    (generate_feed serendipity_slots samples store arms limit vf po offset).length
      ≤ limit.toNat ∧
    ((generate_feed serendipity_slots samples store arms limit vf po offset).map
      (·.id)).Nodup ∧
    VendorOK vf (generate_feed serendipity_slots samples store arms limit vf po offset) := by
  have hneg : ¬ (limit ≤ 0) := by omega
  by_cases hae : (get_all_cluster_arms arms).isEmpty = true
  · have hdef : generate_feed serendipity_slots samples store arms limit vf po offset =
        get_latest_articles store limit.toNat vf po offset := by
      conv_lhs => unfold generate_feed
      rw [if_neg hneg]
      simp only []
      rw [if_pos hae]
    rw [hdef]
    exact get_latest_articles_spec store limit.toNat vf po offset hstore
  · set sc := sampled_clusters arms samples with hsc
    set main_slots := limit - serendipity_slots with hms
    set per := max 1 (main_slots.fdiv (max (sc.length : Int) 1)) with hper
    set feedM := feed_main_loop store vf po offset per sc main_slots [] with hfm
    set lows := sc.drop (sc.length - max 3 (sc.length / 2)) with hlows
    set feedS := if serendipity_slots > 0 ∧ sc.length > 1 then
        serendipity_loop store vf po lows serendipity_slots
          (feedM.map (·.id)) feedM
      else feedM with hfs
    have hdef : generate_feed serendipity_slots samples store arms limit vf po offset =
        feedS.take limit.toNat := by
      conv_lhs => unfold generate_feed
      rw [if_neg hneg]
      simp only []
      rw [if_neg hae]
    rw [hdef]
    have hM := feed_main_loop_spec store vf po offset per hstore sc main_slots []
      (nodup_sampled_clusters arms samples harms) (by simp) (vendorOK_nil vf)
      (by intro it hit; exact absurd hit (List.not_mem_nil it))
    have hS : ((feedS.map (·.id)).Nodup) ∧ VendorOK vf feedS := by
      rw [hfs]
      by_cases hcond : serendipity_slots > 0 ∧ sc.length > 1
      · rw [if_pos hcond]
        exact serendipity_loop_spec store vf po lows serendipity_slots
          (feedM.map (·.id)) feedM rfl hM.1 hM.2
      · rw [if_neg hcond]
        exact hM
    refine ⟨List.length_take_le _ _, ?_, ?_⟩
    · exact hS.1.sublist ((List.take_sublist _ _).map _)
    · exact vendorOK_of_forall_mem (fun it hit => (List.take_sublist _ _).mem hit)
        hS.2

/-- C3 counterexample: with vendor filter `"aws"`, an item whose stored vendor
is `"AWS"` is returned (the comparison is case-insensitive), so the returned
item's vendor does not equal the filter string. -/
theorem C3_counterexample :
    (generate_feed 2 (fun _ => 0)
        [{ (default : StoredArticle) with id := str ("x"), vendor := str ("AWS") }]
        [] 10 (some (str ("aws"))) false 0).map (·.vendor) = [str ("AWS")] ∧
    str ("AWS") ≠ str ("aws") :=
  ⟨rfl, by decide⟩

/-- Witness for C3 at a one-record store with no arms. -/
theorem C3_generate_feed_page_witness :
    ((1 : Int) ≤ 5) ∧
    (([{ (default : StoredArticle) with id := str ("x") }].map (·.id)).Nodup) ∧
    ((([] : List ClusterArm).map (·.cluster_id)).Nodup) ∧
    ((generate_feed 2 (fun _ => 0)
        [{ (default : StoredArticle) with id := str ("x") }] [] 5 none false
        0).length ≤ (5 : Int).toNat ∧
     ((generate_feed 2 (fun _ => 0)
        [{ (default : StoredArticle) with id := str ("x") }] [] 5 none false
        0).map (·.id)).Nodup ∧
     VendorOK none (generate_feed 2 (fun _ => 0)
        [{ (default : StoredArticle) with id := str ("x") }] [] 5 none false 0)) :=
  ⟨by decide, by decide, by decide,
   C3_generate_feed_page 2 (fun _ => 0)
     [{ (default : StoredArticle) with id := str ("x") }] [] 5 none false 0
     (by decide) (by decide) (by decide)⟩

end BrainStream
